import Mathlib

/-!
# Verification of the Postgres query-fragment builder (`postgres.go`)

The Go source assembles SQL text with `fmt.Sprintf` and positional placeholders.
The embedding below follows the source statement by statement:

* Go strings are Lean strings, `fmt.Sprintf("%s %s", a, b)` is `a ++ " " ++ b`;
* Go `int` is `Int` with 64-bit two's-complement wrap-around on every addition (`intAdd`);
* a Go slice of `any` is `Option (List Value)`, where `none` is the nil slice;
* an early `return err.Error(), nil` inside the loop is `Except.error`.
* `strings.ToLower` is Go's rune-wise lower-casing; its Unicode case table is the parameter
  `CaseTable`.
-/

namespace Repository

/-! ## Data model -/

/-- Modelled from the spec: the operator type is declared outside `postgres.go`. The source
compares it with the empty string and prints it with `%s`, so it is a string-kinded enumeration;
its members are the ones the spec lists (section 3), `blank` is the unset value `""`, and
`Parenthesis` is the source name of the spec's BareParenthesis. -/
inductive operatorField
  | blank
  | Equals
  | NotEquals
  | LessThan
  | GreaterThan
  | LessOrEqual
  | GreaterOrEqual
  | In
  | NotIn
  | IsNull
  | IsNotNull
  | Between
  | Parenthesis
  deriving DecidableEq

/-- Modelled from the spec: the text `%s` prints for an operator. The spec fixes the words
`IN`, `IS [NOT] NULL`, `BETWEEN` and the literal `(`; the comparison symbols are the SQL ones. -/
def operatorField.text : operatorField → String
  | .blank => ""
  | .Equals => "="
  | .NotEquals => "<>"
  | .LessThan => "<"
  | .GreaterThan => ">"
  | .LessOrEqual => "<="
  | .GreaterOrEqual => ">="
  | .In => "IN"
  | .NotIn => "NOT IN"
  | .IsNull => "IS NULL"
  | .IsNotNull => "IS NOT NULL"
  | .Between => "BETWEEN"
  | .Parenthesis => "("

/-- Modelled from the spec: the chaining key type is declared outside `postgres.go`; it is
And/Or (section 3), and `blank` is the unset value `""` the source tests for. -/
inductive chainingKey
  | blank
  | And
  | Or
  deriving DecidableEq

/-- Modelled from the spec: the text `%s` prints for a chaining key. -/
def chainingKey.text : chainingKey → String
  | .blank => ""
  | .And => "AND"
  | .Or => "OR"

/-- Modelled from the spec: a UUID identifier (google/uuid), represented by the canonical text
its `String()` method prints under `%s`. -/
structure UUID where
  text : String
  deriving DecidableEq

/-- Modelled from the spec: a calendar date, the three results of `time.Time.Date()`
(the month as its number, which is what `%d` prints). -/
structure Time where
  year : Int
  month : Nat
  day : Nat
  deriving DecidableEq

/-- Modelled from the spec: the dynamic values a field can carry in an `any` slot: `nil`, scalars,
the six collection kinds the containment encoder supports, and `other` for a value of any
further dynamic type (named by its type). -/
inductive Value
  | nil
  | int (i : Int)
  | str (s : String)
  | bool (b : Bool)
  | uints (items : List Nat)
  | ints (items : List Int)
  | int64s (items : List Int)
  | strings (items : List String)
  | uuids (items : List UUID)
  | times (items : List Time)
  | other (typeName : String)
  deriving DecidableEq

/-- Modelled from the spec: the filter descriptor (FieldSpec, section 3); the struct is declared
outside `postgres.go`, the field names are the ones the source reads. -/
structure Field where
  Name : String := ""
  Value : Repository.Value := .nil
  Operator : operatorField := .blank
  ChainingKey : chainingKey := .blank
  Source : String := ""
  IsValueFromTable : Bool := false
  NameValueFromTable : String := ""
  SourceNameValueFromTable : String := ""
  GroupOpen : Bool := false
  GroupClose : Bool := false
  FromValue : Repository.Value := .nil
  ToValue : Repository.Value := .nil
  deriving DecidableEq

/-- Modelled from the spec: the description carried by the error of a malformed Between; the
wording is not in `postgres.go`. -/
def errMissingBounds : String := "between operator requires the from and to values"

/-- Modelled from the spec: `Field.ValidateFromAndToValues` is declared outside `postgres.go`.
"Between requires both bounds set, else an error state": the result is the error description
when a bound is unset and `none` (a nil error) otherwise. -/
def Field.ValidateFromAndToValues (field : Field) : Option String :=
  if field.FromValue = .nil ∨ field.ToValue = .nil then some errMissingBounds else none

/-! ## Go primitives used by the source -/

/-- Go `int` arithmetic wraps in 64-bit two's complement. -/
def intWrap (x : Int) : Int := (x + 2 ^ 63) % 2 ^ 64 - 2 ^ 63

/-- Go `a + b` on `int`. -/
def intAdd (a b : Int) : Int := intWrap (a + b)

/-- The `%d` verb on an unsigned value: decimal digits. -/
def fmtNat (n : Nat) : String := Nat.repr n

/-- The `%d` verb on a signed value: decimal digits, with a leading minus sign when negative. -/
def fmtInt : Int → String
  | .ofNat n => fmtNat n
  | .negSucc n => "-" ++ fmtNat (n + 1)

/-- The case table of Go's `unicode` package: `lower r` is `unicode.To(unicode.LowerCase, r)`,
the lower-case form the table gives a rune above `unicode.MaxASCII`. The table belongs to the
Go library, not to this repository, and differs between Unicode versions: it is a parameter of
the embedding, and every theorem that reads a lower-cased name holds for every table. The one
fact taken of it is that it lower-cases no rune to a parenthesis. -/
class CaseTable where
  lower : Char → Char
  lower_ne_paren : ∀ r : Char, 128 ≤ r.toNat → lower r ≠ '(' ∧ lower r ≠ ')'

/-- Go `unicode.ToLower`: `if r <= MaxASCII { if 'A' <= r && r <= 'Z' { r += 'a' - 'A' };
return r }; return To(LowerCase, r)`. `Char.toLower` is the ASCII branch. -/
def unicodeToLower [CaseTable] (r : Char) : Char :=
  if r.toNat ≤ 127 then r.toLower else CaseTable.lower r

/-- Go `strings.ToLower`: every rune of the string through `unicode.ToLower`. -/
def ToLower [CaseTable] (s : String) : String := ⟨s.data.map unicodeToLower⟩

/-- The rows of the Unicode case table for U+0080..U+00FF (Latin-1 Supplement): the capitals
U+00C0..U+00D6 and U+00D8..U+00DE lower to the rune 32 above; U+00D7 is the multiplication sign.
Runes above U+00FF are left as they are, so this function is the Go table on U+0080..U+00FF
only. -/
def latin1Lower (r : Char) : Char :=
  if (192 ≤ r.toNat ∧ r.toNat ≤ 214) ∨ (216 ≤ r.toNat ∧ r.toNat ≤ 222) then
    Char.ofNat (r.toNat + 32)
  else r

/-- The table the closed examples are evaluated with. It is the Unicode table up to U+00FF, and
every example keeps its names within that range; the general theorems do not use it, they take
the table as a parameter. -/
instance latin1CaseTable : CaseTable where
  lower := latin1Lower
  lower_ne_paren := by
    intro r h
    unfold latin1Lower
    split_ifs with hr
    · generalize r.toNat = n at hr h
      rcases hr with ⟨h1, h2⟩ | ⟨h1, h2⟩ <;> interval_cases n <;> decide
    · constructor <;> (rintro rfl; revert h; decide)

/-- Go `strings.TrimSuffix`: the string without the given trailing text, when it ends with it. -/
def TrimSuffix (s suffix : String) : String :=
  if suffix.data <:+ s.data then ⟨s.data.take (s.data.length - suffix.data.length)⟩ else s

/-- Go `strings.Repeat` of a one-character string. -/
def Repeat (c : Char) (n : Nat) : String := ⟨List.replicate n c⟩

/-- Go `append(args, vs...)` on a slice that may be nil: appending nothing keeps the slice. -/
def goAppend (args : Option (List Value)) (vs : List Value) : Option (List Value) :=
  match vs with
  | [] => args
  | _ => some (args.getD [] ++ vs)

/-! ## Default-resolution helpers (`postgres.go`, lines 497-533) -/

/-- Source `setChainingField`. -/
def setChainingField (field : Field) : Field :=
  if field.Operator = .Parenthesis then { field with ChainingKey := .blank }
  else if field.ChainingKey = .blank then { field with ChainingKey := .And }
  else field

/-- Source `setOperatorField`. -/
def setOperatorField (field : Field) : Field :=
  if field.Operator = .blank then { field with Operator := .Equals } else field

/-- Source `setAliases`. -/
def setAliases (field : Field) : Field :=
  let field :=
    if field.Source ≠ "" then { field with Name := field.Source ++ "." ++ field.Name } else field
  if field.SourceNameValueFromTable ≠ "" then
    { field with
      NameValueFromTable := field.SourceNameValueFromTable ++ "." ++ field.NameValueFromTable }
  else field

/-- Source `setGroupOpen`. -/
def setGroupOpen (field : Field) : Field :=
  if field.Operator = .Parenthesis ∧ field.GroupOpen = true then { field with Name := " (" }
  else if field.GroupOpen = true then { field with Name := "(" ++ field.Name }
  else field

/-- The four helper calls that open the loop body of both predicate assemblers, in source order. -/
def resolveField (field : Field) : Field :=
  setGroupOpen (setAliases (setOperatorField (setChainingField field)))

/-! ## Containment encoder (`BuildINNotIN`, lines 424-495) -/

/-- The loop `for _, item := range items { args += fmt.Sprintf(pattern, item) }`, where `lit`
renders one item and every pattern ends in a comma. -/
def inArgs {α : Type} (lit : α → String) (items : List α) : String :=
  items.foldl (fun args item => args ++ (lit item ++ ",")) ""

/-- One arm of the type switch of `BuildINNotIN`. -/
def inCase {α : Type} (nameField : String) (operator : operatorField) (lit : α → String)
    (items : List α) : String :=
  if items.length = 0 then nameField ++ " = ''"
  else nameField ++ " " ++ operator.text ++ " (" ++ TrimSuffix (inArgs lit items) "," ++ ")"

/-- Source `BuildINNotIN`. -/
def BuildINNotIN [CaseTable] (field : Field) (operator : operatorField) : String :=
  let nameField := ToLower field.Name
  let mistakeIN := nameField ++ " = ''"
  match field.Value with
  | .uints items => inCase nameField operator fmtNat items
  | .ints items => inCase nameField operator fmtInt items
  | .int64s items => inCase nameField operator fmtInt items
  | .strings items => inCase nameField operator (fun item => "'" ++ item ++ "'") items
  | .uuids items => inCase nameField operator (fun item => "'" ++ item.text ++ "'") items
  | .times items =>
    inCase nameField operator
      (fun item => "'" ++ (fmtInt item.year ++ "-" ++ fmtNat item.month ++ "-" ++ fmtNat item.day)
        ++ "'") items
  | _ => mistakeIN

/-! ## Predicate assembler (`BuildSQLWhere`, `BuildSQLWhereWithSequence`) -/

/-- The loop variables of the predicate assemblers. -/
structure WhereState where
  query : String
  args : Option (List Value)
  nGroups : Nat
  paramSequence : Int
  deriving DecidableEq

/-- The `switch field.Operator` block, textually the same in both assemblers (lines 116-163 and
226-272): the new query text and parameter counter, or the error of a malformed Between. -/
def whereSwitch [CaseTable] (field : Field) (query : String) (paramSequence : Int) :
    Except String (String × Int) :=
  match field.Operator with
  | .In | .NotIn => .ok (query ++ " " ++ BuildINNotIN field field.Operator, paramSequence)
  | .IsNull | .IsNotNull =>
    .ok (query ++ " " ++ ToLower field.Name ++ " " ++ field.Operator.text, paramSequence)
  | .Between =>
    match field.ValidateFromAndToValues with
    | some err => .error err
    | none =>
      .ok (query ++ " " ++ ToLower field.Name ++ " " ++ field.Operator.text ++ " $"
            ++ fmtInt paramSequence ++ " AND $" ++ fmtInt (intAdd paramSequence 1),
          intAdd paramSequence 1)
  | .Parenthesis => .ok (query ++ ToLower field.Name, paramSequence)
  | _ =>
    if field.IsValueFromTable then
      .ok (query ++ " " ++ ToLower field.Name ++ " " ++ field.Operator.text ++ " "
            ++ ToLower field.NameValueFromTable, paramSequence)
    else
      .ok (query ++ " " ++ ToLower field.Name ++ " " ++ field.Operator.text ++ " $"
            ++ fmtInt paramSequence, paramSequence)

/-- The two group-closing statements after the switch (lines 165-174 and 274-283): close one
group on GroupClose, then force-close what is still open at the last field. -/
def closeGroups (field : Field) (isLast : Bool) (query : String) (nGroups : Nat) :
    String × Nat :=
  let (query, nGroups) :=
    if nGroups > 0 ∧ field.GroupClose = true then (query ++ ")", nGroups - 1)
    else (query, nGroups)
  if nGroups > 0 ∧ isLast = true then (query ++ Repeat ')' nGroups, nGroups)
  else (query, nGroups)

/-- The test before `continue` (lines 181-184 and 290-293): fields that take no argument. -/
def skipsArgs (field : Field) : Bool :=
  field.Operator = .In || field.Operator = .IsNull || field.Operator = .IsNotNull
    || field.IsValueFromTable

/-- The two `append` statements (lines 190-195 and 299-304). -/
def appendArgs (field : Field) (args : Option (List Value)) : Option (List Value) :=
  let args := if field.Value ≠ .nil then goAppend args [field.Value] else args
  if field.Operator = .Between then goAppend args [field.FromValue, field.ToValue] else args

/-- One iteration of the loop of `BuildSQLWhere` (lines 216-311); `isLast` is
`key == lastFieldIndex`. -/
def BuildSQLWhere.body [CaseTable] (isLast : Bool) (st : WhereState) (field : Field) :
    Except String WhereState :=
  let field := resolveField field
  let nGroups := if field.GroupOpen = true then st.nGroups + 1 else st.nGroups
  match whereSwitch field st.query st.paramSequence with
  | .error err => .error err
  | .ok (query, paramSequence) =>
    let (query, nGroups) := closeGroups field isLast query nGroups
    let query :=
      if isLast = false ∧ field.Operator ≠ .Parenthesis then
        query ++ " " ++ field.ChainingKey.text
      else query
    if skipsArgs field = true then .ok ⟨query, st.args, nGroups, paramSequence⟩
    else
      let args := appendArgs field st.args
      if field.Operator = .Parenthesis then .ok ⟨query, args, nGroups, paramSequence⟩
      else .ok ⟨query, args, nGroups, intAdd paramSequence 1⟩

/-- The loop `for key, field := range fields` of `BuildSQLWhere`. -/
def BuildSQLWhere.loop [CaseTable] (lastFieldIndex : Nat) :
    Nat → WhereState → List Field → Except String WhereState
  | _, st, [] => .ok st
  | key, st, field :: rest =>
    match BuildSQLWhere.body (key == lastFieldIndex) st field with
    | .error err => .error err
    | .ok st1 => BuildSQLWhere.loop lastFieldIndex (key + 1) st1 rest

/-- Source `BuildSQLWhere`: the clause text and the arguments. -/
def BuildSQLWhere [CaseTable] (fields : List Field) : String × Option (List Value) :=
  if fields.isEmpty then ("", some [])
  else
    match BuildSQLWhere.loop (fields.length - 1) 0 ⟨"WHERE", none, 0, 1⟩ fields with
    | .error err => (err, none)
    | .ok st => (st.query, st.args)

/-- One iteration of the loop of `BuildSQLWhereWithSequence` (lines 106-198): the chaining key
is appended after every field but the last, and only the `continue` of line 186 skips the
final increment. -/
def BuildSQLWhereWithSequence.body [CaseTable] (isLast : Bool) (st : WhereState) (field : Field) :
    Except String WhereState :=
  let field := resolveField field
  let nGroups := if field.GroupOpen = true then st.nGroups + 1 else st.nGroups
  match whereSwitch field st.query st.paramSequence with
  | .error err => .error err
  | .ok (query, paramSequence) =>
    let (query, nGroups) := closeGroups field isLast query nGroups
    let query := if isLast = false then query ++ " " ++ field.ChainingKey.text else query
    if skipsArgs field = true then .ok ⟨query, st.args, nGroups, paramSequence⟩
    else .ok ⟨query, appendArgs field st.args, nGroups, intAdd paramSequence 1⟩

/-- The loop `for key, field := range fields` of `BuildSQLWhereWithSequence`. -/
def BuildSQLWhereWithSequence.loop [CaseTable] (lastFieldIndex : Nat) :
    Nat → WhereState → List Field → Except String WhereState
  | _, st, [] => .ok st
  | key, st, field :: rest =>
    match BuildSQLWhereWithSequence.body (key == lastFieldIndex) st field with
    | .error err => .error err
    | .ok st1 => BuildSQLWhereWithSequence.loop lastFieldIndex (key + 1) st1 rest

/-- Source `BuildSQLWhereWithSequence`: the clause text and the arguments. -/
def BuildSQLWhereWithSequence [CaseTable] (fields : List Field) (paramSequence : Int) :
    String × Option (List Value) :=
  if fields.isEmpty then ("", some [])
  else
    match BuildSQLWhereWithSequence.loop (fields.length - 1) 0 ⟨"WHERE", none, 0, paramSequence⟩
      fields with
    | .error err => (err, none)
    | .ok st => (st.query, st.args)

/-! ## Derived descriptions of one resolved field

What the four default-resolution helpers leave in a field, written as closed expressions of
the caller's field; `resolveField_eq` below proves they agree with the helpers. -/

/-- The name after `setAliases`: qualified by Source when Source is set. -/
def Field.aliasedName (f : Field) : String :=
  if f.Source = "" then f.Name else f.Source ++ "." ++ f.Name

/-- The cross-column target after `setAliases`. -/
def Field.aliasedTarget (f : Field) : String :=
  if f.SourceNameValueFromTable = "" then f.NameValueFromTable
  else f.SourceNameValueFromTable ++ "." ++ f.NameValueFromTable

/-- The name after `setAliases` and `setGroupOpen`. -/
def Field.resolvedName (f : Field) : String :=
  if f.Operator = .Parenthesis ∧ f.GroupOpen = true then " ("
  else if f.GroupOpen = true then "(" ++ f.aliasedName
  else f.aliasedName

/-- The operator after `setOperatorField`. -/
def Field.resolvedOperator (f : Field) : operatorField :=
  if f.Operator = .blank then .Equals else f.Operator

/-- The chaining key after `setChainingField`. -/
def Field.resolvedChainingKey (f : Field) : chainingKey :=
  if f.Operator = .Parenthesis then .blank
  else if f.ChainingKey = .blank then .And else f.ChainingKey

/-- The group depth after the `nGroups++` of a GroupOpen field. -/
def openedGroups (f : Field) (nGroups : Nat) : Nat :=
  if f.GroupOpen = true then nGroups + 1 else nGroups

/-- The group depth a field leaves behind: opened by GroupOpen, closed by GroupClose when a
group is open. -/
def groupsAfter (f : Field) (nGroups : Nat) : Nat :=
  if openedGroups f nGroups > 0 ∧ f.GroupClose = true then openedGroups f nGroups - 1
  else openedGroups f nGroups

/-- The closing parentheses a field appends after its condition. -/
def closingText (f : Field) (isLast : Bool) (nGroups : Nat) : String :=
  (if openedGroups f nGroups > 0 ∧ f.GroupClose = true then ")" else "")
    ++ (if groupsAfter f nGroups > 0 ∧ isLast = true then Repeat ')' (groupsAfter f nGroups)
        else "")

/-- The separator `BuildSQLWhere` appends after a field. -/
def chainingText (f : Field) (isLast : Bool) : String :=
  if isLast = false ∧ f.Operator ≠ .Parenthesis then " " ++ f.resolvedChainingKey.text else ""

/-- The separator `BuildSQLWhereWithSequence` appends after a field. -/
def chainingTextSeq (f : Field) (isLast : Bool) : String :=
  if isLast = false then " " ++ f.resolvedChainingKey.text else ""

/-- Comparison operators: the ones the `default` arm of the switch handles (a blank operator is
resolved to Equals before the switch). -/
def operatorField.isComparison : operatorField → Bool
  | .blank | .Equals | .NotEquals | .LessThan | .GreaterThan | .LessOrEqual
  | .GreaterOrEqual => true
  | _ => false

/-- A bound-value comparison: a comparison operator against a bound value, not a column. -/
def Field.isBoundComparison (f : Field) : Bool :=
  f.Operator.isComparison && !f.IsValueFromTable

/-- The literals the containment encoder inlines for a value: one text per item for the six
supported collection kinds (numbers as decimal digits, strings and UUIDs in single quotes,
dates as quoted year-month-day), and `none` for a value of any other kind. -/
def Value.literals : Value → Option (List String)
  | .uints items => some (items.map fmtNat)
  | .ints items => some (items.map fmtInt)
  | .int64s items => some (items.map fmtInt)
  | .strings items => some (items.map fun item => "'" ++ item ++ "'")
  | .uuids items => some (items.map fun item => "'" ++ item.text ++ "'")
  | .times items =>
    some (items.map fun item =>
      "'" ++ (fmtInt item.year ++ "-" ++ fmtNat item.month ++ "-" ++ fmtNat item.day) ++ "'")
  | _ => none

/-- A Between field with a missing bound. -/
def Field.isMalformedBetween (f : Field) : Prop :=
  f.Operator = .Between ∧ (f.FromValue = .nil ∨ f.ToValue = .nil)

/-- The parameter indices `s, s+1, ..., s+n-1` (Go `int` addition) handed to `n` fields. -/
def paramIndices (s : Int) (n : Nat) : List Int := List.iterate (fun i => intAdd i 1) s n

/-- The clause text of a run of bound-value comparisons, each paired with the index of its
placeholder: per field the condition `name OP $index`, the closing parentheses, and the
chaining key when another field follows. -/
def boundClause [CaseTable] (nGroups : Nat) : List (Field × Int) → String
  | [] => ""
  | (f, index) :: rest =>
    " " ++ ToLower f.resolvedName ++ " " ++ f.resolvedOperator.text ++ " $" ++ fmtInt index
      ++ closingText f rest.isEmpty nGroups
      ++ (if rest.isEmpty = true then "" else " " ++ f.resolvedChainingKey.text)
      ++ boundClause (groupsAfter f nGroups) rest

/-- The args a run of bound-value comparisons leaves: each non-nil Value appended in order. -/
def boundArgs (args : Option (List Value)) : List Field → Option (List Value)
  | [] => args
  | f :: rest => boundArgs (if f.Value ≠ .nil then goAppend args [f.Value] else args) rest

/-- The clause text C1 describes for Equals filters: every field contributes exactly one
placeholder `= $index`, with the index it is paired with. -/
def numberedEquals [CaseTable] (nGroups : Nat) : List (Field × Int) → String
  | [] => ""
  | (f, index) :: rest =>
    " " ++ ToLower f.resolvedName ++ " = $" ++ fmtInt index
      ++ closingText f rest.isEmpty nGroups
      ++ (if rest.isEmpty = true then "" else " " ++ f.resolvedChainingKey.text)
      ++ numberedEquals (groupsAfter f nGroups) rest

/-- The condition C9 describes for one bound-value comparison: the alias-qualified, lowercased
name, the operator (Equals when blank) and the placeholder. -/
def comparisonCondition [CaseTable] (f : Field) (index : Int) : String :=
  ToLower f.aliasedName ++ " "
    ++ (if f.Operator = .blank then operatorField.Equals.text else f.Operator.text)
    ++ " $" ++ fmtInt index

/-- The chaining word of a field: its ChainingKey, AND when blank. -/
def chainingWord (f : Field) : String :=
  if f.ChainingKey = .blank then chainingKey.And.text else f.ChainingKey.text

/-- The conditions of C9 in input order; between two consecutive conditions stands the chaining
word of the first of them, and nothing follows the last condition. -/
def chainedConditions [CaseTable] : List (Field × Int) → String
  | [] => ""
  | [(f, index)] => comparisonCondition f index
  | (f, index) :: g :: rest =>
    comparisonCondition f index ++ " " ++ chainingWord f ++ " " ++ chainedConditions (g :: rest)

/-- Fields that take no parameter slot by the design of the walk: In, IsNull, IsNotNull,
BareParenthesis, and comparisons against a column. -/
def Field.takesNoSlot (f : Field) : Bool :=
  match f.Operator with
  | .In | .IsNull | .IsNotNull | .Parenthesis => true
  | op => op.isComparison && f.IsValueFromTable

/-- Sample filter: a Between on `t.Age` with both bounds set. -/
def sampleBetween : Field :=
  { Name := "Age", Source := "t", Operator := .Between, FromValue := .int 18, ToValue := .int 65 }

/-- Sample filter: an In over three integers. -/
def sampleIn : Field := { Name := "kind", Operator := .In, Value := .ints [1, 2, 3] }

/-- Sample filter: a bound-value Equals. -/
def sampleEquals : Field := { Name := "city", Value := .str "Lima" }

/-- The loop variables at the start of `BuildSQLWhere`. -/
def whereStart : WhereState := ⟨"WHERE", none, 0, 1⟩

/-- A text without parentheses. -/
def hasNoParens (s : String) : Bool := s.data.all fun c => c != '(' && c != ')'

/-- Scan of a text for parenthesis balance: from depth `d`, every `(` opens a level and every
`)` closes one; the scan fails on a `)` at depth 0 and otherwise returns the final depth. -/
def parenScan : List Char → Nat → Option Nat
  | [], d => some d
  | c :: cs, d =>
    if c = '(' then parenScan cs (d + 1)
    else if c = ')' then (if d = 0 then none else parenScan cs (d - 1))
    else parenScan cs d

/-- The text `s` takes the parenthesis depth from `d` to `e` without ever closing below 0. -/
def Scans (s : String) (d e : Nat) : Prop := parenScan s.data d = some e

/-- The operators C10 covers: comparisons, IsNull, IsNotNull and BareParenthesis. -/
def operatorField.isGroupable (op : operatorField) : Bool :=
  op.isComparison || op = .IsNull || op = .IsNotNull || op = .Parenthesis

/-! ## Sort, pagination and composition (`postgres.go`, lines 316-394) -/

/-- Modelled from the spec: the sort order type is declared outside `postgres.go`. The source
compares it with the empty string and prints it with `%s`; it is Asc or Desc (section 3),
`blank` being the unset value `""`. -/
inductive sortOrder
  | blank
  | Asc
  | Desc
  deriving DecidableEq

/-- Modelled from the spec: the text `%s` prints for a sort order. -/
def sortOrder.text : sortOrder → String
  | .blank => ""
  | .Asc => "ASC"
  | .Desc => "DESC"

/-- Modelled from the spec: the sort descriptor (SortSpec, section 3), declared outside
`postgres.go`; the field names are the ones the source reads. -/
structure SortField where
  Name : String := ""
  Order : sortOrder := .blank
  Source : String := ""
  deriving DecidableEq

/-- Modelled from the spec: the paging parameters (section 3), declared outside `postgres.go`.
The source only tests them against 0 and never against a negative value: they are unsigned
64-bit machine integers (Go `uint`), here naturals below `2 ^ 64`. -/
structure Pagination where
  Page : Nat := 0
  Limit : Nat := 0
  MaxLimit : Nat := 0
  deriving DecidableEq

/-- The values a `Pagination` can hold: every field fits the unsigned machine word. -/
def Pagination.inRange (pag : Pagination) : Prop :=
  pag.Page < 2 ^ 64 ∧ pag.Limit < 2 ^ 64 ∧ pag.MaxLimit < 2 ^ 64

/-- Modelled from the spec: the full query description (FieldsSpecification, section 3),
declared outside `postgres.go`. -/
structure FieldsSpecification where
  Filters : List Field := []
  Sorts : List SortField := []
  Pagination : Repository.Pagination := {}

/-- Go `a * b` on `uint`: the product modulo `2 ^ 64`. -/
def uintMul (a b : Nat) : Nat := (a * b) % 2 ^ 64

/-- Go `a - b` on `uint` (both below `2 ^ 64`): the difference modulo `2 ^ 64`. -/
def uintSub (a b : Nat) : Nat := (a + 2 ^ 64 - b) % 2 ^ 64

/-- Source constant `_defaultMaxLimit`. -/
def _defaultMaxLimit : Nat := 100

/-- Source `setSortFieldOrder`. -/
def setSortFieldOrder (sortField : SortField) : SortField :=
  if sortField.Order = .blank then { sortField with Order := .Asc } else sortField

/-- Source `setSortFieldAliases`. -/
def setSortFieldAliases (sortField : SortField) : SortField :=
  if sortField.Source ≠ "" then
    { sortField with Name := sortField.Source ++ "." ++ sortField.Name }
  else sortField

/-- The loop `for key, sort := range sorts` of `BuildSQLOrderBy`. -/
def BuildSQLOrderBy.loop [CaseTable] (length : Nat) : Nat → String → List SortField → String
  | _, query, [] => query
  | key, query, sort :: rest =>
    let sort := setSortFieldAliases (setSortFieldOrder sort)
    let query := query ++ " " ++ ToLower sort.Name ++ " " ++ sort.Order.text
    let query := if key ≠ length - 1 then query ++ "," else query
    BuildSQLOrderBy.loop length (key + 1) query rest

/-- Source `BuildSQLOrderBy`. -/
def BuildSQLOrderBy [CaseTable] (sorts : List SortField) : String :=
  if sorts.isEmpty then ""
  else BuildSQLOrderBy.loop sorts.length 0 "ORDER BY" sorts

/-- Source `BuildSQLPagination`. -/
def BuildSQLPagination (pag : Pagination) : String :=
  if pag.Limit = 0 ∧ pag.Page = 0 then ""
  else
    let pag := if pag.MaxLimit = 0 then { pag with MaxLimit := _defaultMaxLimit } else pag
    let pag :=
      if pag.Limit = 0 ∨ pag.Limit > pag.MaxLimit then { pag with Limit := pag.MaxLimit }
      else pag
    let pag := if pag.Page = 0 then { pag with Page := 1 } else pag
    let offset := uintSub (uintMul pag.Page pag.Limit) pag.Limit
    "LIMIT " ++ fmtNat pag.Limit ++ " OFFSET " ++ fmtNat offset

/-- Source `BuildQueryArgsAndPagination`. -/
def BuildQueryArgsAndPagination [CaseTable] (initialSQL : String) (specification : FieldsSpecification) :
    String × Option (List Value) :=
  let (conditions, args) := BuildSQLWhere specification.Filters
  let query := initialSQL ++ " " ++ conditions
  let query := query ++ (" " ++ BuildSQLOrderBy specification.Sorts)
  let query := query ++ (" " ++ BuildSQLPagination specification.Pagination)
  (query, args)

/-- Source `BuildQueryArgsAndPaginationWithSequence`. -/
def BuildQueryArgsAndPaginationWithSequence [CaseTable] (initialSQL : String)
    (specification : FieldsSpecification) (initSequenceFilters : Int) :
    String × Option (List Value) :=
  let (conditions, args) := BuildSQLWhereWithSequence specification.Filters initSequenceFilters
  let query := initialSQL ++ " " ++ conditions
  let query := query ++ (" " ++ BuildSQLOrderBy specification.Sorts)
  let query := query ++ (" " ++ BuildSQLPagination specification.Pagination)
  (query, args)

/-! ## Statement templators (`postgres.go`, lines 15-79 and 396-422) -/

/-- Go `s[:len(s)-1]` on a string whose last byte is an ASCII character (here always the
comma the loop has just written): the string without its last character. -/
def dropLastByte (s : String) : String := ⟨s.data.dropLast⟩

/-- The loop `for k, v := range fields` of `BuildSQLInsert` (`first = 2`) and of
`BuildSQLInsertNoID` (`first = 1`): the column text and the placeholder text, each entry
followed by a comma. The index `k` of a slice element and `k + first` are far below the
machine word, so the addition is exact. -/
def insertLoop (first : Nat) : Nat → String → String → List String → String × String
  | _, args, vals, [] => (args, vals)
  | k, args, vals, v :: rest =>
    insertLoop first (k + 1) (args ++ (v ++ ",")) (vals ++ ("$" ++ fmtNat (k + first) ++ ","))
      rest

/-- Source `BuildSQLInsert`. -/
def BuildSQLInsert (table : String) (fields : List String) : String :=
  let (args, vals) := insertLoop 2 0 "" "" fields
  let (args, vals) :=
    if fields.length > 0 then (dropLastByte args, dropLastByte vals) else (args, vals)
  "INSERT INTO " ++ table ++ " (id," ++ args ++ ") VALUES ($1," ++ vals
    ++ ") RETURNING created_at"

/-- Source `BuildSQLInsertNoID`. -/
def BuildSQLInsertNoID (table : String) (fields : List String) : String :=
  let (args, vals) := insertLoop 1 0 "" "" fields
  let (args, vals) :=
    if fields.length > 0 then (dropLastByte args, dropLastByte vals) else (args, vals)
  "INSERT INTO " ++ table ++ " (" ++ args ++ ") VALUES (" ++ vals
    ++ ") RETURNING id, created_at"

/-- The loop `for k, field := range fields` of `BuildSQLUpdateBy`: the assignment text and the
args; `k + 1` is an index of a slice plus one, so the addition is exact. -/
def BuildSQLUpdateBy.loop :
    Nat → String → Option (List Value) → List Field → String × Option (List Value)
  | _, fieldToUpdate, args, [] => (fieldToUpdate, args)
  | k, fieldToUpdate, args, field :: rest =>
    let fieldToUpdate := fieldToUpdate ++ (field.Name ++ " = $" ++ fmtNat (k + 1) ++ ", ")
    let args := if field.Value ≠ .nil then goAppend args [field.Value] else args
    BuildSQLUpdateBy.loop (k + 1) fieldToUpdate args rest

/-- Source `BuildSQLUpdateBy`; `fields.IsEmpty()` is the emptiness test of the slice. -/
def BuildSQLUpdateBy (table byField : String) (fields : List Field) :
    String × Option (List Value) :=
  if fields.isEmpty then ("", none)
  else
    let (fieldToUpdate, args) := BuildSQLUpdateBy.loop 0 "" none fields
    ("UPDATE " ++ table ++ " SET " ++ fieldToUpdate ++ "updated_at = now() WHERE " ++ byField
      ++ " = $" ++ fmtNat (fields.length + 1), args)

/-- The loop `for _, v := range fields` shared by `ColumnsAliased` and
`ColumnsAliasedWithDefault`. -/
def aliasedColumns (aliased : String) (fields : List String) : String :=
  fields.foldl (fun columns v => columns ++ (aliased ++ "." ++ v ++ ", ")) ""

/-- Source `ColumnsAliased`. -/
def ColumnsAliased (fields : List String) (aliased : String) : String :=
  if fields.length = 0 then ""
  else
    aliased ++ ".id, " ++ aliasedColumns aliased fields ++ aliased ++ ".created_at, " ++ aliased
      ++ ".updated_at"

/-- Source `ColumnsAliasedWithDefault`. -/
def ColumnsAliasedWithDefault (fields : List String) (aliased : String) : String :=
  if fields.length = 0 then ""
  else
    aliased ++ ".id, " ++ aliasedColumns aliased fields ++ aliased ++ ".created_at, " ++ aliased
      ++ ".updated_at"

/-- The limit C12 describes: `M` stands for MaxLimit, 100 when it is 0. -/
def effectiveMaxLimit (pag : Pagination) : Nat :=
  if pag.MaxLimit = 0 then 100 else pag.MaxLimit

/-- The limit C12 describes: `L` is `M` when Limit is 0 or above `M`, and Limit otherwise. -/
def effectiveLimit (pag : Pagination) : Nat :=
  if pag.Limit = 0 ∨ pag.Limit > effectiveMaxLimit pag then effectiveMaxLimit pag
  else pag.Limit

/-- The page C12 describes: `P` is Page, 1 when it is 0. -/
def effectivePage (pag : Pagination) : Nat := if pag.Page = 0 then 1 else pag.Page

/-- The entry of one sort key in the ORDER BY list: the alias-qualified name in lower case and
the order, ASC when blank. -/
def sortEntry [CaseTable] (sort : SortField) : String :=
  ToLower (if sort.Source = "" then sort.Name else sort.Source ++ "." ++ sort.Name) ++ " "
    ++ (if sort.Order = .blank then sortOrder.Asc.text else sort.Order.text)

/-- The placeholders `$first, $first+1, ...` of `n` columns, in column order. -/
def columnPlaceholders (first n : Nat) : List String :=
  (List.range n).map fun k => "$" ++ fmtNat (k + first)

/-- The assignments `name = $k, ` of `BuildSQLUpdateBy`, the k counted from `first`. -/
def updateAssignments (first : Nat) : List Field → String
  | [] => ""
  | field :: rest =>
    field.Name ++ " = $" ++ fmtNat first ++ ", " ++ updateAssignments (first + 1) rest

/-- The non-nil Values of a field list, in field order. -/
def nonNilValues (fields : List Field) : List Value :=
  (fields.map fun f => f.Value).filter fun v => v ≠ .nil

/-- A text of ASCII characters only. -/
def isASCII (s : String) : Bool := s.data.all fun c => decide (c.toNat < 128)

/-- A text without capital ASCII letters. -/
def hasNoCapital (s : String) : Bool :=
  s.data.all fun c => !(decide (65 ≤ c.toNat) && decide (c.toNat ≤ 90))

/-- The lowercase form of an ASCII text as C19 means it: every letter `A`..`Z` replaced by its
small letter, every other character kept. It is written without `ToLower`, the model of the
call the source makes. -/
def asciiLower (s : String) : String := ⟨s.data.map Char.toLower⟩

/-- The field with its four identifiers (Name, Source, NameValueFromTable,
SourceNameValueFromTable) replaced by their lowercase forms. -/
def Field.lowerNames (f : Field) : Field :=
  { f with
    Name := asciiLower f.Name,
    Source := asciiLower f.Source,
    NameValueFromTable := asciiLower f.NameValueFromTable,
    SourceNameValueFromTable := asciiLower f.SourceNameValueFromTable }

/-- The fields C19 ranges over: the four identifiers are ASCII texts. -/
def Field.hasASCIINames (f : Field) : Bool :=
  isASCII f.Name && isASCII f.Source && isASCII f.NameValueFromTable
    && isASCII f.SourceNameValueFromTable

/-- The text C19 describes for one field reached with parameter counter `p`: the condition
with every column name in its lowercase form. The column names are the resolved name of the
field and, in a cross-column comparison, the resolved target; a containment list is written
by its literals. -/
def foldedCondition (f : Field) (p : Int) : String :=
  match f.Operator with
  | .In | .NotIn =>
    match f.Value.literals with
    | some (l :: ls) =>
      " " ++ asciiLower f.resolvedName ++ " " ++ f.Operator.text ++ " ("
        ++ ",".intercalate (l :: ls) ++ ")"
    | _ => " " ++ asciiLower f.resolvedName ++ " = ''"
  | .IsNull | .IsNotNull => " " ++ asciiLower f.resolvedName ++ " " ++ f.Operator.text
  | .Between =>
    " " ++ asciiLower f.resolvedName ++ " BETWEEN $" ++ fmtInt p ++ " AND $"
      ++ fmtInt (intAdd p 1)
  | .Parenthesis => asciiLower f.resolvedName
  | _ =>
    if f.IsValueFromTable = true then
      " " ++ asciiLower f.resolvedName ++ " " ++ f.resolvedOperator.text ++ " "
        ++ asciiLower f.aliasedTarget
    else " " ++ asciiLower f.resolvedName ++ " " ++ f.resolvedOperator.text ++ " $" ++ fmtInt p

/-- The parameter counter `BuildSQLWhere` hands to the next field: a Between advances it for
its second placeholder, and every field advances it once more unless it is skipped (In,
IsNull, IsNotNull, a cross-column field) or a BareParenthesis. -/
def foldedNext (f : Field) (p : Int) : Int :=
  let p1 := if f.Operator = .Between then intAdd p 1 else p
  if f.Operator = .In ∨ f.Operator = .IsNull ∨ f.Operator = .IsNotNull
      ∨ f.IsValueFromTable = true ∨ f.Operator = .Parenthesis then p1
  else intAdd p1 1

/-- The clause text C19 describes: per field its condition with lowercase column names, its
closing parentheses and its chaining key. -/
def foldedClause (nGroups : Nat) (p : Int) : List Field → String
  | [] => ""
  | f :: rest =>
    foldedCondition f p ++ closingText f rest.isEmpty nGroups ++ chainingText f rest.isEmpty
      ++ foldedClause (groupsAfter f nGroups) (foldedNext f p) rest

/-! ## Theorems -/

/-! ### The default-resolution helpers in closed form -/

theorem setChainingField_eq (f : Field) :
    setChainingField f = { f with ChainingKey := f.resolvedChainingKey } := by
  obtain ⟨n, v, op, ck, src, vt, nvt, snvt, go, gc, fv, tv⟩ := f
  simp only [setChainingField, Field.resolvedChainingKey]
  split_ifs <;> simp_all

theorem setOperatorField_eq (f : Field) :
    setOperatorField f = { f with Operator := f.resolvedOperator } := by
  obtain ⟨n, v, op, ck, src, vt, nvt, snvt, go, gc, fv, tv⟩ := f
  simp only [setOperatorField, Field.resolvedOperator]
  split_ifs <;> simp_all

theorem setAliases_eq (f : Field) :
    setAliases f = { f with Name := f.aliasedName, NameValueFromTable := f.aliasedTarget } := by
  obtain ⟨n, v, op, ck, src, vt, nvt, snvt, go, gc, fv, tv⟩ := f
  simp only [setAliases, Field.aliasedName, Field.aliasedTarget]
  split_ifs <;> simp_all

theorem setGroupOpen_eq (f : Field) :
    setGroupOpen f =
      { f with Name := if f.Operator = .Parenthesis ∧ f.GroupOpen = true then " ("
                       else if f.GroupOpen = true then "(" ++ f.Name else f.Name } := by
  obtain ⟨n, v, op, ck, src, vt, nvt, snvt, go, gc, fv, tv⟩ := f
  simp only [setGroupOpen]
  split_ifs <;> simp_all

theorem resolveField_eq (f : Field) :
    resolveField f =
      { Name := f.resolvedName, Value := f.Value, Operator := f.resolvedOperator,
        ChainingKey := f.resolvedChainingKey, Source := f.Source,
        IsValueFromTable := f.IsValueFromTable, NameValueFromTable := f.aliasedTarget,
        SourceNameValueFromTable := f.SourceNameValueFromTable, GroupOpen := f.GroupOpen,
        GroupClose := f.GroupClose, FromValue := f.FromValue, ToValue := f.ToValue } := by
  unfold resolveField
  rw [setChainingField_eq, setOperatorField_eq, setAliases_eq, setGroupOpen_eq]
  obtain ⟨n, v, op, ck, src, vt, nvt, snvt, go, gc, fv, tv⟩ := f
  simp only [Field.resolvedName, Field.resolvedOperator, Field.aliasedName, Field.aliasedTarget,
    Field.resolvedChainingKey, Field.mk.injEq, and_true, true_and]
  by_cases h : op = .Parenthesis
  · subst h; simp
  · by_cases h2 : op = .blank
    · subst h2; simp
    · simp [h, h2]

theorem resolveField_Name (f : Field) : (resolveField f).Name = f.resolvedName := by
  rw [resolveField_eq]
theorem resolveField_Value (f : Field) : (resolveField f).Value = f.Value := by
  rw [resolveField_eq]
theorem resolveField_Operator (f : Field) : (resolveField f).Operator = f.resolvedOperator := by
  rw [resolveField_eq]
theorem resolveField_ChainingKey (f : Field) :
    (resolveField f).ChainingKey = f.resolvedChainingKey := by
  rw [resolveField_eq]
theorem resolveField_IsValueFromTable (f : Field) :
    (resolveField f).IsValueFromTable = f.IsValueFromTable := by
  rw [resolveField_eq]
theorem resolveField_NameValueFromTable (f : Field) :
    (resolveField f).NameValueFromTable = f.aliasedTarget := by
  rw [resolveField_eq]
theorem resolveField_GroupOpen (f : Field) : (resolveField f).GroupOpen = f.GroupOpen := by
  rw [resolveField_eq]
theorem resolveField_GroupClose (f : Field) : (resolveField f).GroupClose = f.GroupClose := by
  rw [resolveField_eq]
theorem resolveField_FromValue (f : Field) : (resolveField f).FromValue = f.FromValue := by
  rw [resolveField_eq]
theorem resolveField_ToValue (f : Field) : (resolveField f).ToValue = f.ToValue := by
  rw [resolveField_eq]

theorem closeGroups_eq (f : Field) (isLast : Bool) (q : String) (n : Nat) :
    closeGroups (resolveField f) isLast q (openedGroups f n) =
      (q ++ closingText f isLast n, groupsAfter f n) := by
  rw [resolveField_eq]
  simp only [closeGroups, closingText, groupsAfter]
  split_ifs <;> simp_all [String.append_assoc]

theorem resolvedOperator_eq_Parenthesis (f : Field) :
    f.resolvedOperator = .Parenthesis ↔ f.Operator = .Parenthesis := by
  unfold Field.resolvedOperator
  split_ifs with h <;> simp [h]

theorem body_of_switch [CaseTable] (isLast : Bool) (st : WhereState) (f : Field) (q : String) (p : Int)
    (h : whereSwitch (resolveField f) st.query st.paramSequence = .ok (q, p)) :
    BuildSQLWhere.body isLast st f =
      .ok ⟨q ++ closingText f isLast st.nGroups ++ chainingText f isLast,
           if skipsArgs (resolveField f) = true then st.args
           else appendArgs (resolveField f) st.args,
           groupsAfter f st.nGroups,
           if skipsArgs (resolveField f) = true ∨ f.Operator = .Parenthesis then p
           else intAdd p 1⟩ := by
  unfold BuildSQLWhere.body
  simp only [h, resolveField_GroupOpen]
  have hc := closeGroups_eq f isLast q st.nGroups
  unfold openedGroups at hc
  rw [hc]
  simp only [resolveField_Operator, resolveField_ChainingKey, chainingText,
    resolvedOperator_eq_Parenthesis]
  split_ifs <;> simp_all [String.append_assoc, resolvedOperator_eq_Parenthesis]

theorem bodySeq_of_switch [CaseTable] (isLast : Bool) (st : WhereState) (f : Field) (q : String) (p : Int)
    (h : whereSwitch (resolveField f) st.query st.paramSequence = .ok (q, p)) :
    BuildSQLWhereWithSequence.body isLast st f =
      .ok ⟨q ++ closingText f isLast st.nGroups ++ chainingTextSeq f isLast,
           if skipsArgs (resolveField f) = true then st.args
           else appendArgs (resolveField f) st.args,
           groupsAfter f st.nGroups,
           if skipsArgs (resolveField f) = true then p else intAdd p 1⟩ := by
  unfold BuildSQLWhereWithSequence.body
  simp only [h, resolveField_GroupOpen]
  have hc := closeGroups_eq f isLast q st.nGroups
  unfold openedGroups at hc
  rw [hc]
  simp only [resolveField_ChainingKey, chainingTextSeq]
  split_ifs <;> simp_all [String.append_assoc]

theorem body_of_switch_error [CaseTable] (isLast : Bool) (st : WhereState) (f : Field) (e : String)
    (h : whereSwitch (resolveField f) st.query st.paramSequence = .error e) :
    BuildSQLWhere.body isLast st f = .error e := by
  unfold BuildSQLWhere.body
  simp only [h]

theorem bodySeq_of_switch_error [CaseTable] (isLast : Bool) (st : WhereState) (f : Field) (e : String)
    (h : whereSwitch (resolveField f) st.query st.paramSequence = .error e) :
    BuildSQLWhereWithSequence.body isLast st f = .error e := by
  unfold BuildSQLWhereWithSequence.body
  simp only [h]

/-- The switch on a comparison operator. -/
theorem whereSwitch_comparison [CaseTable] (f : Field) (q : String) (p : Int)
    (hop : f.Operator.isComparison = true) :
    whereSwitch (resolveField f) q p =
      if f.IsValueFromTable = true then
        .ok (q ++ (" " ++ ToLower f.resolvedName ++ " " ++ f.resolvedOperator.text ++ " "
              ++ ToLower f.aliasedTarget), p)
      else
        .ok (q ++ (" " ++ ToLower f.resolvedName ++ " " ++ f.resolvedOperator.text ++ " $"
              ++ fmtInt p), p) := by
  rw [resolveField_eq]
  unfold whereSwitch
  cases hf : f.Operator <;> simp_all [operatorField.isComparison, Field.resolvedOperator,
    String.append_assoc]

theorem whereSwitch_in [CaseTable] (f : Field) (q : String) (p : Int)
    (hop : f.Operator = .In ∨ f.Operator = .NotIn) :
    whereSwitch (resolveField f) q p =
      .ok (q ++ (" " ++ BuildINNotIN (resolveField f) f.Operator), p) := by
  have h := resolveField_Operator f
  unfold whereSwitch
  rcases hop with hop | hop <;>
    simp [h, hop, Field.resolvedOperator, String.append_assoc]

theorem whereSwitch_null [CaseTable] (f : Field) (q : String) (p : Int)
    (hop : f.Operator = .IsNull ∨ f.Operator = .IsNotNull) :
    whereSwitch (resolveField f) q p =
      .ok (q ++ (" " ++ ToLower f.resolvedName ++ " " ++ f.Operator.text), p) := by
  rw [resolveField_eq]
  unfold whereSwitch
  rcases hop with hop | hop <;>
    simp [hop, Field.resolvedOperator, String.append_assoc]

theorem whereSwitch_parenthesis [CaseTable] (f : Field) (q : String) (p : Int)
    (hop : f.Operator = .Parenthesis) :
    whereSwitch (resolveField f) q p = .ok (q ++ ToLower f.resolvedName, p) := by
  rw [resolveField_eq]
  unfold whereSwitch
  simp [hop, Field.resolvedOperator]

theorem whereSwitch_between [CaseTable] (f : Field) (q : String) (p : Int)
    (hop : f.Operator = .Between) :
    whereSwitch (resolveField f) q p =
      if f.FromValue = .nil ∨ f.ToValue = .nil then .error errMissingBounds
      else
        .ok (q ++ (" " ++ ToLower f.resolvedName ++ " BETWEEN $" ++ fmtInt p ++ " AND $"
              ++ fmtInt (intAdd p 1)), intAdd p 1) := by
  rw [resolveField_eq]
  unfold whereSwitch
  simp only [hop, Field.resolvedOperator, Field.ValidateFromAndToValues]
  split_ifs <;> simp_all [operatorField.text, String.append_assoc]

/-! ### Malformed Between -/

theorem whereSwitch_error_eq [CaseTable] (f : Field) (q : String) (p : Int) (e : String)
    (h : whereSwitch f q p = .error e) : e = errMissingBounds := by
  unfold whereSwitch Field.ValidateFromAndToValues at h
  split at h <;> (try split_ifs at h) <;> simp at h
  exact h.symm

theorem body_error_eq [CaseTable] (isLast : Bool) (st : WhereState) (f : Field) (e : String)
    (h : BuildSQLWhere.body isLast st f = .error e) : e = errMissingBounds := by
  cases hs : whereSwitch (resolveField f) st.query st.paramSequence with
  | error e2 =>
    rw [body_of_switch_error isLast st f e2 hs] at h
    cases h
    exact whereSwitch_error_eq _ _ _ _ hs
  | ok r =>
    obtain ⟨q, p⟩ := r
    rw [body_of_switch isLast st f q p hs] at h
    cases h

theorem bodySeq_error_eq [CaseTable] (isLast : Bool) (st : WhereState) (f : Field) (e : String)
    (h : BuildSQLWhereWithSequence.body isLast st f = .error e) : e = errMissingBounds := by
  cases hs : whereSwitch (resolveField f) st.query st.paramSequence with
  | error e2 =>
    rw [bodySeq_of_switch_error isLast st f e2 hs] at h
    cases h
    exact whereSwitch_error_eq _ _ _ _ hs
  | ok r =>
    obtain ⟨q, p⟩ := r
    rw [bodySeq_of_switch isLast st f q p hs] at h
    cases h

theorem body_malformed [CaseTable] (isLast : Bool) (st : WhereState) (f : Field)
    (h : f.isMalformedBetween) : BuildSQLWhere.body isLast st f = .error errMissingBounds := by
  apply body_of_switch_error
  rw [whereSwitch_between f _ _ h.1, if_pos h.2]

theorem bodySeq_malformed [CaseTable] (isLast : Bool) (st : WhereState) (f : Field)
    (h : f.isMalformedBetween) :
    BuildSQLWhereWithSequence.body isLast st f = .error errMissingBounds := by
  apply bodySeq_of_switch_error
  rw [whereSwitch_between f _ _ h.1, if_pos h.2]

theorem loop_malformed [CaseTable] (L : Nat) (fields : List Field) :
    ∀ (key : Nat) (st : WhereState), (∃ f ∈ fields, f.isMalformedBetween) →
      BuildSQLWhere.loop L key st fields = .error errMissingBounds := by
  induction fields with
  | nil => intro key st h; simp at h
  | cons g rest ih =>
    intro key st h
    unfold BuildSQLWhere.loop
    cases hb : BuildSQLWhere.body (key == L) st g with
    | error e => simp only; rw [body_error_eq _ _ _ _ hb]
    | ok st1 =>
      simp only
      apply ih
      obtain ⟨f, hf, hbad⟩ := h
      rcases List.mem_cons.mp hf with rfl | hf
      · rw [body_malformed _ _ _ hbad] at hb; cases hb
      · exact ⟨f, hf, hbad⟩

theorem loopSeq_malformed [CaseTable] (L : Nat) (fields : List Field) :
    ∀ (key : Nat) (st : WhereState), (∃ f ∈ fields, f.isMalformedBetween) →
      BuildSQLWhereWithSequence.loop L key st fields = .error errMissingBounds := by
  induction fields with
  | nil => intro key st h; simp at h
  | cons g rest ih =>
    intro key st h
    unfold BuildSQLWhereWithSequence.loop
    cases hb : BuildSQLWhereWithSequence.body (key == L) st g with
    | error e => simp only; rw [bodySeq_error_eq _ _ _ _ hb]
    | ok st1 =>
      simp only
      apply ih
      obtain ⟨f, hf, hbad⟩ := h
      rcases List.mem_cons.mp hf with rfl | hf
      · rw [bodySeq_malformed _ _ _ hbad] at hb; cases hb
      · exact ⟨f, hf, hbad⟩

/-- C6: when a filter list contains a Between field with a missing bound, `BuildSQLWhere` and
`BuildSQLWhereWithSequence` (at every starting index) return the error description as the
whole text and the nil slice as args; nothing assembled for earlier fields survives. -/
theorem malformed_between_replaces_result [CaseTable] (fields : List Field) (s : Int)
    (h : ∃ f ∈ fields, f.Operator = .Between ∧ (f.FromValue = .nil ∨ f.ToValue = .nil)) :
    BuildSQLWhere fields = (errMissingBounds, none)
      ∧ BuildSQLWhereWithSequence fields s = (errMissingBounds, none) := by
  have hne : fields.isEmpty = false := by
    obtain ⟨f, hf, _⟩ := h
    cases fields with
    | nil => simp at hf
    | cons _ _ => rfl
  constructor
  · unfold BuildSQLWhere
    rw [loop_malformed _ _ _ _ h]
    simp [hne]
  · unfold BuildSQLWhereWithSequence
    rw [loopSeq_malformed _ _ _ _ h]
    simp [hne]

/-- Witness for C6: an Equals filter followed by a Between without its upper bound. -/
theorem malformed_between_replaces_result_witness :
    (∃ f ∈ [({ Name := "a", Value := .int 5 } : Field),
            { Name := "b", Operator := .Between, FromValue := .int 1 }],
        f.Operator = .Between ∧ (f.FromValue = .nil ∨ f.ToValue = .nil))
      ∧ BuildSQLWhere [({ Name := "a", Value := .int 5 } : Field),
            { Name := "b", Operator := .Between, FromValue := .int 1 }] = (errMissingBounds, none)
      ∧ BuildSQLWhereWithSequence [({ Name := "a", Value := .int 5 } : Field),
            { Name := "b", Operator := .Between, FromValue := .int 1 }] 7
          = (errMissingBounds, none) :=
  ⟨⟨_, List.mem_cons_of_mem _ (List.mem_singleton.mpr rfl), rfl, Or.inr rfl⟩,
    malformed_between_replaces_result _ 7
      ⟨_, List.mem_cons_of_mem _ (List.mem_singleton.mpr rfl), rfl, Or.inr rfl⟩⟩

/-! ### Containment encoder -/

theorem inArgs_foldl {α : Type} (lit : α → String) (items : List α) :
    ∀ acc : String,
      items.foldl (fun args item => args ++ (lit item ++ ",")) acc = acc ++ inArgs lit items := by
  induction items with
  | nil => intro acc; simp [inArgs]
  | cons a rest ih =>
    intro acc
    simp only [inArgs, List.foldl_cons]
    rw [ih, ih ("" ++ (lit a ++ ","))]
    simp [String.append_assoc]

theorem inArgs_cons {α : Type} (lit : α → String) (a : α) (rest : List α) :
    inArgs lit (a :: rest) = lit a ++ "," ++ inArgs lit rest := by
  have h := inArgs_foldl lit rest ("" ++ (lit a ++ ","))
  simp only [inArgs, List.foldl_cons] at h ⊢
  rw [h]
  simp [String.append_assoc]

theorem intercalate_go (sep : String) (rest : List String) :
    ∀ acc : String,
      String.intercalate.go acc sep rest = acc ++ String.intercalate.go "" sep rest := by
  induction rest with
  | nil => intro acc; simp [String.intercalate.go]
  | cons a rest ih =>
    intro acc
    simp only [String.intercalate.go]
    rw [ih, ih ("" ++ sep ++ a)]
    simp [String.append_assoc]

theorem intercalate_cons_cons (sep a b : String) (rest : List String) :
    sep.intercalate (a :: b :: rest) = a ++ sep ++ sep.intercalate (b :: rest) := by
  simp only [String.intercalate, String.intercalate.go]
  rw [intercalate_go, intercalate_go sep rest b]
  simp [String.append_assoc]

theorem inArgs_eq_intercalate {α : Type} (lit : α → String) (rest : List α) :
    ∀ a : α, inArgs lit (a :: rest) = ",".intercalate ((a :: rest).map lit) ++ "," := by
  induction rest with
  | nil => intro a; simp [inArgs, String.intercalate, String.intercalate.go]
  | cons b rest ih =>
    intro a
    rw [inArgs_cons, ih b]
    simp only [List.map_cons]
    rw [intercalate_cons_cons]
    simp [String.append_assoc]

theorem TrimSuffix_comma (x : String) : TrimSuffix (x ++ ",") "," = x := by
  unfold TrimSuffix
  have hs : ",".data <:+ (x ++ ",").data := by
    rw [String.data_append]
    exact List.suffix_append _ _
  rw [if_pos hs]
  simp

theorem inCase_nil {α : Type} (nameField : String) (operator : operatorField)
    (lit : α → String) : inCase nameField operator lit [] = nameField ++ " = ''" := by
  simp [inCase]

theorem inCase_cons {α : Type} (nameField : String) (operator : operatorField)
    (lit : α → String) (a : α) (rest : List α) :
    inCase nameField operator lit (a :: rest) =
      nameField ++ " " ++ operator.text ++ " (" ++ ",".intercalate ((a :: rest).map lit)
        ++ ")" := by
  unfold inCase
  rw [inArgs_eq_intercalate, TrimSuffix_comma]
  simp

/-- C7: for every field and every operator handed to it, `BuildINNotIN` returns exactly
`<lowercased name> = ''` when the Value is of no supported kind (nil and scalars included) or
is an empty collection of a supported kind; and `BuildSQLWhere` walks such an In field, wherever
it stands, with that text, the args unchanged and the parameter counter unchanged. -/
theorem empty_or_unsupported_in_is_always_false [CaseTable] (field : Field) (operator : operatorField)
    (h : field.Value.literals = none ∨ field.Value.literals = some []) :
    BuildINNotIN field operator = ToLower field.Name ++ " = ''"
      ∧ (field.Operator = .In →
          ∀ (L key : Nat) (st : WhereState) (rest : List Field),
            BuildSQLWhere.loop L key st (field :: rest) =
              BuildSQLWhere.loop L (key + 1)
                ⟨st.query ++ (" " ++ (ToLower field.resolvedName ++ " = ''")
                    ++ closingText field (key == L) st.nGroups
                    ++ chainingText field (key == L)),
                  st.args, groupsAfter field st.nGroups, st.paramSequence⟩ rest) := by
  have hin : ∀ (g : Field) (op : operatorField),
      (g.Value.literals = none ∨ g.Value.literals = some []) →
        BuildINNotIN g op = ToLower g.Name ++ " = ''" := by
    intro g op hg
    unfold BuildINNotIN
    cases hv : g.Value <;> simp_all [Value.literals, inCase_nil]
  refine ⟨hin field operator h, ?_⟩
  intro hop L key st rest
  have hsw := whereSwitch_in field st.query st.paramSequence (Or.inl hop)
  have hv : (resolveField field).Value.literals = none
      ∨ (resolveField field).Value.literals = some [] := by
    rw [resolveField_Value]; exact h
  rw [hin _ _ hv, resolveField_Name] at hsw
  have hb := body_of_switch (key == L) st field _ _ hsw
  have hskip : skipsArgs (resolveField field) = true := by
    simp [skipsArgs, resolveField_Operator, Field.resolvedOperator, hop]
  rw [BuildSQLWhere.loop, hb]
  simp [hskip, String.append_assoc]

/-- Witness for C7: an In field on `État` whose Value is an empty integer list. -/
theorem empty_or_unsupported_in_is_always_false_witness :
    (({ Name := "État", Operator := .In, Value := .ints [] } : Field).Value.literals = none
        ∨ ({ Name := "État", Operator := .In, Value := .ints [] } : Field).Value.literals
            = some [])
      ∧ BuildINNotIN { Name := "État", Operator := .In, Value := .ints [] } .NotIn
          = "état = ''" :=
  ⟨Or.inr rfl,
    (empty_or_unsupported_in_is_always_false
      { Name := "État", Operator := .In, Value := .ints [] } .NotIn (Or.inr rfl)).1.trans
      (by decide)⟩

/-- C8: for every field whose Value is a non-empty collection of a supported kind,
`BuildINNotIN` returns `name OP (l1,...,ln)`: the literals in input order, joined by single
commas with no trailing comma, integers as decimal digits and strings in single quotes; and
In with `[1,2,3]` on Source `t`, Name `age` gives `t.age IN (1,2,3)` inside `BuildSQLWhere`. -/
theorem in_list_is_inlined_in_order [CaseTable] (field : Field) (operator : operatorField)
    (lits : List String) (h : field.Value.literals = some lits) (hne : lits ≠ []) :
    BuildINNotIN field operator =
        ToLower field.Name ++ " " ++ operator.text ++ " (" ++ ",".intercalate lits ++ ")"
      ∧ BuildSQLWhere [{ Name := "age", Source := "t", Operator := .In, Value := .ints [1, 2, 3] }]
          = ("WHERE t.age IN (1,2,3)", none) := by
  refine ⟨?_, rfl⟩
  unfold BuildINNotIN
  cases hv : field.Value with
  | uints items =>
    cases items with
    | nil => simp_all [Value.literals]
    | cons a rest =>
      simp only [hv, Value.literals, Option.some.injEq] at h
      subst h; simp only [inCase_cons]
  | ints items =>
    cases items with
    | nil => simp_all [Value.literals]
    | cons a rest =>
      simp only [hv, Value.literals, Option.some.injEq] at h
      subst h; simp only [inCase_cons]
  | int64s items =>
    cases items with
    | nil => simp_all [Value.literals]
    | cons a rest =>
      simp only [hv, Value.literals, Option.some.injEq] at h
      subst h; simp only [inCase_cons]
  | strings items =>
    cases items with
    | nil => simp_all [Value.literals]
    | cons a rest =>
      simp only [hv, Value.literals, Option.some.injEq] at h
      subst h; simp only [inCase_cons]
  | uuids items =>
    cases items with
    | nil => simp_all [Value.literals]
    | cons a rest =>
      simp only [hv, Value.literals, Option.some.injEq] at h
      subst h; simp only [inCase_cons]
  | times items =>
    cases items with
    | nil => simp_all [Value.literals]
    | cons a rest =>
      simp only [hv, Value.literals, Option.some.injEq] at h
      subst h; simp only [inCase_cons]
  | nil => simp [hv, Value.literals] at h
  | int i => simp [hv, Value.literals] at h
  | str s => simp [hv, Value.literals] at h
  | bool b => simp [hv, Value.literals] at h
  | other t => simp [hv, Value.literals] at h

/-- Witness for C8: NotIn over two strings. -/
theorem in_list_is_inlined_in_order_witness :
    (({ Name := "État", Value := .strings ["a", "b"] } : Field).Value.literals
        = some ["'a'", "'b'"] ∧ ["'a'", "'b'"] ≠ [])
      ∧ BuildINNotIN { Name := "État", Value := .strings ["a", "b"] } .NotIn
          = "état NOT IN ('a','b')" :=
  ⟨⟨rfl, by decide⟩,
    (in_list_is_inlined_in_order { Name := "État", Value := .strings ["a", "b"] } .NotIn
      ["'a'", "'b'"] rfl (by decide)).1.trans (by decide)⟩

/-! ### Runs of bound-value comparisons -/

theorem skipsArgs_bound (f : Field) (h : f.isBoundComparison = true) :
    skipsArgs (resolveField f) = false := by
  rw [resolveField_eq]
  simp only [Field.isBoundComparison, Bool.and_eq_true, Bool.not_eq_true'] at h
  cases hf : f.Operator <;>
    simp_all [skipsArgs, operatorField.isComparison, Field.resolvedOperator]

theorem appendArgs_bound (f : Field) (args : Option (List Value))
    (h : f.isBoundComparison = true) :
    appendArgs (resolveField f) args =
      if f.Value ≠ .nil then goAppend args [f.Value] else args := by
  rw [resolveField_eq]
  simp only [Field.isBoundComparison, Bool.and_eq_true, Bool.not_eq_true'] at h
  cases hf : f.Operator <;>
    simp_all [appendArgs, operatorField.isComparison, Field.resolvedOperator]

theorem not_parenthesis_of_bound (f : Field) (h : f.isBoundComparison = true) :
    f.Operator ≠ .Parenthesis := by
  intro hp
  simp [Field.isBoundComparison, hp, operatorField.isComparison] at h

theorem body_bound [CaseTable] (isLast : Bool) (st : WhereState) (f : Field)
    (h : f.isBoundComparison = true) :
    BuildSQLWhere.body isLast st f =
      .ok ⟨st.query ++ (" " ++ ToLower f.resolvedName ++ " " ++ f.resolvedOperator.text ++ " $"
              ++ fmtInt st.paramSequence ++ closingText f isLast st.nGroups
              ++ (if isLast = true then "" else " " ++ f.resolvedChainingKey.text)),
           if f.Value ≠ .nil then goAppend st.args [f.Value] else st.args,
           groupsAfter f st.nGroups, intAdd st.paramSequence 1⟩ := by
  have hc : f.Operator.isComparison = true := by
    simp only [Field.isBoundComparison, Bool.and_eq_true] at h; exact h.1
  have hv : f.IsValueFromTable = false := by
    simp only [Field.isBoundComparison, Bool.and_eq_true, Bool.not_eq_true'] at h; exact h.2
  have hsw := whereSwitch_comparison f st.query st.paramSequence hc
  rw [hv] at hsw
  simp only [Bool.false_eq_true, if_false] at hsw
  rw [body_of_switch isLast st f _ _ hsw, skipsArgs_bound f h, appendArgs_bound f _ h]
  have hp := not_parenthesis_of_bound f h
  cases isLast <;> simp [hp, chainingText, String.append_assoc]

theorem bodySeq_bound [CaseTable] (isLast : Bool) (st : WhereState) (f : Field)
    (h : f.isBoundComparison = true) :
    BuildSQLWhereWithSequence.body isLast st f =
      .ok ⟨st.query ++ (" " ++ ToLower f.resolvedName ++ " " ++ f.resolvedOperator.text ++ " $"
              ++ fmtInt st.paramSequence ++ closingText f isLast st.nGroups
              ++ (if isLast = true then "" else " " ++ f.resolvedChainingKey.text)),
           if f.Value ≠ .nil then goAppend st.args [f.Value] else st.args,
           groupsAfter f st.nGroups, intAdd st.paramSequence 1⟩ := by
  have hc : f.Operator.isComparison = true := by
    simp only [Field.isBoundComparison, Bool.and_eq_true] at h; exact h.1
  have hv : f.IsValueFromTable = false := by
    simp only [Field.isBoundComparison, Bool.and_eq_true, Bool.not_eq_true'] at h; exact h.2
  have hsw := whereSwitch_comparison f st.query st.paramSequence hc
  rw [hv] at hsw
  simp only [Bool.false_eq_true, if_false] at hsw
  rw [bodySeq_of_switch isLast st f _ _ hsw, skipsArgs_bound f h, appendArgs_bound f _ h]
  cases isLast <;> simp [chainingTextSeq, String.append_assoc]

theorem key_is_last (L key : Nat) (rest : List Field) (h : key + (rest.length + 1) = L + 1) :
    (key == L) = rest.isEmpty := by
  cases rest with
  | nil => simp at h; simp [h]
  | cons a r =>
    have : key ≠ L := by simp at h; omega
    simp [this]

theorem zip_paramIndices_isEmpty (rest : List Field) (s : Int) :
    (rest.zip (paramIndices s rest.length)).isEmpty = rest.isEmpty := by
  cases rest <;> simp [paramIndices, List.iterate]

theorem zip_paramIndices_cons (f : Field) (rest : List Field) (s : Int) :
    (f :: rest).zip (paramIndices s (f :: rest).length) =
      (f, s) :: rest.zip (paramIndices (intAdd s 1) rest.length) := by
  simp [paramIndices, List.iterate]

theorem boundClause_cons [CaseTable] (d : Nat) (f : Field) (rest : List Field) (s : Int) :
    boundClause d ((f :: rest).zip (paramIndices s (f :: rest).length)) =
      " " ++ (ToLower f.resolvedName ++ (" " ++ (f.resolvedOperator.text ++ (" $" ++ (fmtInt s
        ++ (closingText f rest.isEmpty d
        ++ ((if rest.isEmpty = true then "" else " " ++ f.resolvedChainingKey.text)
        ++ boundClause (groupsAfter f d)
            (rest.zip (paramIndices (intAdd s 1) rest.length))))))))) := by
  rw [zip_paramIndices_cons, boundClause, zip_paramIndices_isEmpty]
  simp only [String.append_assoc]

theorem loop_bound [CaseTable] (L : Nat) (fields : List Field) :
    ∀ (key : Nat) (st : WhereState), key + fields.length = L + 1 →
      (∀ f ∈ fields, f.isBoundComparison = true) →
      ∃ n p, BuildSQLWhere.loop L key st fields =
        .ok ⟨st.query ++ boundClause st.nGroups
                (fields.zip (paramIndices st.paramSequence fields.length)),
             boundArgs st.args fields, n, p⟩ := by
  induction fields with
  | nil =>
    intro key st _ _
    exact ⟨st.nGroups, st.paramSequence, by simp [BuildSQLWhere.loop, boundClause, boundArgs]⟩
  | cons f rest ih =>
    intro key st hk hall
    have hf := hall f (List.mem_cons_self _ _)
    have hrest : ∀ g ∈ rest, g.isBoundComparison = true :=
      fun g hg => hall g (List.mem_cons_of_mem _ hg)
    have hlast := key_is_last L key rest (by simpa using hk)
    rw [BuildSQLWhere.loop, body_bound _ _ _ hf]
    simp only
    obtain ⟨n, p, hl⟩ := ih (key + 1) _ (by simp at hk ⊢; omega) hrest
    refine ⟨n, p, ?_⟩
    rw [hl, hlast, boundClause_cons]
    simp only [boundArgs, String.append_assoc]

theorem loopSeq_bound [CaseTable] (L : Nat) (fields : List Field) :
    ∀ (key : Nat) (st : WhereState), key + fields.length = L + 1 →
      (∀ f ∈ fields, f.isBoundComparison = true) →
      ∃ n p, BuildSQLWhereWithSequence.loop L key st fields =
        .ok ⟨st.query ++ boundClause st.nGroups
                (fields.zip (paramIndices st.paramSequence fields.length)),
             boundArgs st.args fields, n, p⟩ := by
  induction fields with
  | nil =>
    intro key st _ _
    exact ⟨st.nGroups, st.paramSequence,
      by simp [BuildSQLWhereWithSequence.loop, boundClause, boundArgs]⟩
  | cons f rest ih =>
    intro key st hk hall
    have hf := hall f (List.mem_cons_self _ _)
    have hrest : ∀ g ∈ rest, g.isBoundComparison = true :=
      fun g hg => hall g (List.mem_cons_of_mem _ hg)
    have hlast := key_is_last L key rest (by simpa using hk)
    rw [BuildSQLWhereWithSequence.loop, bodySeq_bound _ _ _ hf]
    simp only
    obtain ⟨n, p, hl⟩ := ih (key + 1) _ (by simp at hk ⊢; omega) hrest
    refine ⟨n, p, ?_⟩
    rw [hl, hlast, boundClause_cons]
    simp only [boundArgs, String.append_assoc]

theorem BuildSQLWhere_bound [CaseTable] (fields : List Field) (hne : fields ≠ [])
    (hall : ∀ f ∈ fields, f.isBoundComparison = true) :
    BuildSQLWhere fields =
      ("WHERE" ++ boundClause 0 (fields.zip (paramIndices 1 fields.length)),
        boundArgs none fields) := by
  have hemp : fields.isEmpty = false := by
    cases fields with
    | nil => exact absurd rfl hne
    | cons _ _ => rfl
  have hlen : 0 + fields.length = (fields.length - 1) + 1 := by
    cases fields with
    | nil => exact absurd rfl hne
    | cons _ _ => simp
  obtain ⟨n, p, hl⟩ := loop_bound (fields.length - 1) fields 0 ⟨"WHERE", none, 0, 1⟩ hlen hall
  unfold BuildSQLWhere
  rw [hl]
  simp [hemp]

theorem BuildSQLWhereWithSequence_bound [CaseTable] (fields : List Field) (s : Int) (hne : fields ≠ [])
    (hall : ∀ f ∈ fields, f.isBoundComparison = true) :
    BuildSQLWhereWithSequence fields s =
      ("WHERE" ++ boundClause 0 (fields.zip (paramIndices s fields.length)),
        boundArgs none fields) := by
  have hemp : fields.isEmpty = false := by
    cases fields with
    | nil => exact absurd rfl hne
    | cons _ _ => rfl
  have hlen : 0 + fields.length = (fields.length - 1) + 1 := by
    cases fields with
    | nil => exact absurd rfl hne
    | cons _ _ => simp
  obtain ⟨n, p, hl⟩ :=
    loopSeq_bound (fields.length - 1) fields 0 ⟨"WHERE", none, 0, s⟩ hlen hall
  unfold BuildSQLWhereWithSequence
  rw [hl]
  simp [hemp]

theorem intAdd_intWrap (a k : Int) : intAdd (intWrap (a + k)) 1 = intWrap (a + (k + 1)) := by
  unfold intAdd intWrap
  omega

theorem paramIndices_eq (n : Nat) :
    ∀ s : Int, paramIndices s n =
      (List.range n).map (fun (k : Nat) => if k = 0 then s else intWrap (s + (k : Int))) := by
  induction n with
  | zero => intro s; simp [paramIndices, List.iterate]
  | succ n ih =>
    intro s
    have h := ih (intAdd s 1)
    unfold paramIndices at h ⊢
    rw [List.iterate, h, List.range_succ_eq_map]
    simp only [List.map_cons, List.map_map, if_true, List.cons.injEq, true_and]
    apply List.map_congr_left
    intro k _
    simp only [Function.comp, Nat.succ_ne_zero, if_false]
    split_ifs with hk
    · subst hk; simp [intAdd]
    · unfold intAdd intWrap; push_cast; omega

theorem paramIndices_in_range (n : Nat) (s : Int) (hlo : -(2 : Int) ^ 63 ≤ s)
    (hhi : s + (n : Int) ≤ 2 ^ 63) :
    paramIndices s n = (List.range n).map (fun (k : Nat) => s + (k : Int)) := by
  rw [paramIndices_eq]
  apply List.map_congr_left
  intro k hk
  have hkn : k < n := List.mem_range.mp hk
  split_ifs with h0
  · subst h0; simp
  · unfold intWrap; omega

theorem boundClause_eq_numberedEquals [CaseTable] (l : List (Field × Int)) :
    ∀ d : Nat, (∀ x ∈ l, x.1.Operator = .Equals ∨ x.1.Operator = .blank) →
      boundClause d l = numberedEquals d l := by
  induction l with
  | nil => intro d _; simp [boundClause, numberedEquals]
  | cons x rest ih =>
    intro d h
    obtain ⟨f, i⟩ := x
    have hop : f.resolvedOperator.text = "=" := by
      have h0 : f.Operator = .Equals ∨ f.Operator = .blank := h (f, i) (List.mem_cons_self _ _)
      rcases h0 with h1 | h1 <;> simp [Field.resolvedOperator, h1, operatorField.text]
    rw [boundClause, numberedEquals, hop, ih _ (fun y hy => h y (List.mem_cons_of_mem _ hy))]
    simp only [String.append_assoc]
    rfl

theorem isBoundComparison_of_equals (f : Field)
    (h : (f.Operator = .Equals ∨ f.Operator = .blank) ∧ f.IsValueFromTable = false) :
    f.isBoundComparison = true := by
  rcases h with ⟨h1 | h1, h2⟩ <;> simp [Field.isBoundComparison, h1, h2, operatorField.isComparison]

/-- C1 (amended): for every non-empty list of Equals (or blank-operator) bound-value filters
and every starting index `s`, the text of `BuildSQLWhereWithSequence fields s` is `WHERE`
followed by one condition `name = $i` per filter, in filter order, the i being
`s, s+1, ..., s+n-1` in Go `int` addition: the k-th index is `s+k` wrapped into 64 bits, which
is `s+k` itself whenever `s+n-1` does not exceed MaxInt64; and `BuildSQLWhere` gives the same
with `s = 1`. -/
theorem equals_filters_number_consecutively [CaseTable] (fields : List Field) (s : Int)
    (hne : fields ≠ [])
    (hall : ∀ f ∈ fields,
      (f.Operator = .Equals ∨ f.Operator = .blank) ∧ f.IsValueFromTable = false) :
    (BuildSQLWhereWithSequence fields s).1 =
        "WHERE" ++ numberedEquals 0 (fields.zip (paramIndices s fields.length))
      ∧ (BuildSQLWhere fields).1 =
        "WHERE" ++ numberedEquals 0 (fields.zip (paramIndices 1 fields.length))
      ∧ paramIndices s fields.length =
        (List.range fields.length).map (fun (k : Nat) => if k = 0 then s else intWrap (s + (k : Int)))
      ∧ (-(2 : Int) ^ 63 ≤ s → s + (fields.length : Int) ≤ 2 ^ 63 →
          paramIndices s fields.length =
            (List.range fields.length).map (fun (k : Nat) => s + (k : Int))) := by
  have hb : ∀ f ∈ fields, f.isBoundComparison = true :=
    fun f hf => isBoundComparison_of_equals f (hall f hf)
  have heq : ∀ t : Int, boundClause 0 (fields.zip (paramIndices t fields.length)) =
      numberedEquals 0 (fields.zip (paramIndices t fields.length)) := by
    intro t
    apply boundClause_eq_numberedEquals
    intro x hx
    exact (hall x.1 (List.of_mem_zip hx).1).1
  refine ⟨?_, ?_, paramIndices_eq _ _, paramIndices_in_range _ _⟩
  · rw [BuildSQLWhereWithSequence_bound fields s hne hb, heq]
  · rw [BuildSQLWhere_bound fields hne hb, heq]

/-- Witness for C1: two Equals filters, the second with a blank operator, from index 5; the
first name holds a capital letter outside ASCII. -/
theorem equals_filters_number_consecutively_witness :
    ([({ Name := "AÑO", Operator := .Equals, Value := .int 1 } : Field),
        { Name := "b", Value := .int 2 }] ≠ []
      ∧ ∀ f ∈ [({ Name := "AÑO", Operator := .Equals, Value := .int 1 } : Field),
          { Name := "b", Value := .int 2 }],
        (f.Operator = .Equals ∨ f.Operator = .blank) ∧ f.IsValueFromTable = false)
      ∧ (BuildSQLWhereWithSequence
          [({ Name := "AÑO", Operator := .Equals, Value := .int 1 } : Field),
            { Name := "b", Value := .int 2 }] 5).1 = "WHERE año = $5 AND b = $6" :=
  ⟨⟨by decide, by decide⟩,
    (equals_filters_number_consecutively
      [({ Name := "AÑO", Operator := .Equals, Value := .int 1 } : Field),
        { Name := "b", Value := .int 2 }] 5 (by decide) (by decide)).1.trans (by decide)⟩

/-- Counterexample to C1 as stated: from the starting index MaxInt64 the second filter is not
numbered `$s+1`; the counter wraps and the placeholder is `$-9223372036854775808`. -/
theorem equals_numbering_wraps_at_max_int :
    (BuildSQLWhereWithSequence
        [({ Name := "a", Value := .int 1 } : Field), { Name := "b", Value := .int 2 }]
        9223372036854775807).1
        = "WHERE a = $9223372036854775807 AND b = $-9223372036854775808"
      ∧ (BuildSQLWhereWithSequence
        [({ Name := "a", Value := .int 1 } : Field), { Name := "b", Value := .int 2 }]
        9223372036854775807).1
        ≠ "WHERE a = $9223372036854775807 AND b = $9223372036854775808" := by
  decide

theorem boundArgs_of_values (fields : List Field) :
    ∀ args : Option (List Value), fields ≠ [] → (∀ f ∈ fields, f.Value ≠ .nil) →
      boundArgs args fields = some (args.getD [] ++ fields.map (fun f => f.Value)) := by
  induction fields with
  | nil => intro args h; exact absurd rfl h
  | cons f rest ih =>
    intro args _ hv
    have hf : f.Value ≠ .nil := hv f (List.mem_cons_self _ _)
    rw [boundArgs, if_pos hf]
    cases rest with
    | nil => simp [boundArgs, goAppend]
    | cons g rest2 =>
      rw [ih _ (by simp) (fun x hx => hv x (List.mem_cons_of_mem _ hx))]
      simp [goAppend]

/-- C2 (amended): in `BuildSQLWhere`, a bound-value comparison field (comparison operator,
IsValueFromTable false) whose Value is not nil is emitted as `name OP $i` and appends its Value
to the args, wherever it stands in a filter list; so for a non-empty list of such fields the
args returned are exactly their Values, in filter order. -/
theorem bound_values_become_args [CaseTable] (fields : List Field) (hne : fields ≠ [])
    (hall : ∀ f ∈ fields,
      f.Operator.isComparison = true ∧ f.IsValueFromTable = false ∧ f.Value ≠ .nil) :
    BuildSQLWhere fields =
        ("WHERE" ++ boundClause 0 (fields.zip (paramIndices 1 fields.length)),
          some (fields.map (fun f => f.Value)))
      ∧ ∀ f ∈ fields, ∀ (L key : Nat) (st : WhereState) (rest : List Field),
          BuildSQLWhere.loop L key st (f :: rest) =
            BuildSQLWhere.loop L (key + 1)
              ⟨st.query ++ (" " ++ ToLower f.resolvedName ++ " " ++ f.resolvedOperator.text
                  ++ " $" ++ fmtInt st.paramSequence ++ closingText f (key == L) st.nGroups
                  ++ (if (key == L) = true then "" else " " ++ f.resolvedChainingKey.text)),
                some (st.args.getD [] ++ [f.Value]), groupsAfter f st.nGroups,
                intAdd st.paramSequence 1⟩ rest := by
  have hb : ∀ f ∈ fields, f.isBoundComparison = true := by
    intro f hf
    obtain ⟨h1, h2, _⟩ := hall f hf
    simp [Field.isBoundComparison, h1, h2]
  have hv : ∀ f ∈ fields, f.Value ≠ .nil := fun f hf => (hall f hf).2.2
  constructor
  · rw [BuildSQLWhere_bound fields hne hb, boundArgs_of_values fields none hne hv]
    simp
  · intro f hf L key st rest
    rw [BuildSQLWhere.loop, body_bound _ _ _ (hb f hf), if_pos (hv f hf)]
    rfl

/-- Witness for C2: two comparisons with set Values. -/
theorem bound_values_become_args_witness :
    ([({ Name := "a", Operator := .GreaterThan, Value := .int 1 } : Field),
        { Name := "b", Value := .str "x" }] ≠ []
      ∧ ∀ f ∈ [({ Name := "a", Operator := .GreaterThan, Value := .int 1 } : Field),
          { Name := "b", Value := .str "x" }],
        f.Operator.isComparison = true ∧ f.IsValueFromTable = false ∧ f.Value ≠ .nil)
      ∧ (BuildSQLWhere [({ Name := "a", Operator := .GreaterThan, Value := .int 1 } : Field),
          { Name := "b", Value := .str "x" }]).2 = some [.int 1, .str "x"] :=
  ⟨⟨by decide, by decide⟩,
    congrArg Prod.snd (bound_values_become_args
      [({ Name := "a", Operator := .GreaterThan, Value := .int 1 } : Field),
        { Name := "b", Value := .str "x" }] (by decide) (by decide)).1⟩

/-- Counterexample to C2 as stated: two bound-value comparisons are both emitted with a
placeholder, but the first has a nil Value, which is not appended, so the args are not the
two Values. -/
theorem nil_value_is_not_appended :
    BuildSQLWhere [({ Name := "a" } : Field), { Name := "b", Value := .int 5 }]
        = ("WHERE a = $1 AND b = $2", some [.int 5])
      ∧ (BuildSQLWhere [({ Name := "a" } : Field), { Name := "b", Value := .int 5 }]).2
        ≠ some ([({ Name := "a" } : Field), { Name := "b", Value := .int 5 }].map
            (fun f => f.Value)) := by
  decide

theorem closingText_no_groups (f : Field) (isLast : Bool)
    (ho : f.GroupOpen = false) (hc : f.GroupClose = false) :
    closingText f isLast 0 = "" ∧ groupsAfter f 0 = 0 := by
  simp [closingText, groupsAfter, openedGroups, ho, hc]

theorem boundClause_eq_chained [CaseTable] (l : List (Field × Int)) :
    l ≠ [] →
    (∀ x ∈ l, x.1.Operator.isComparison = true ∧ x.1.GroupOpen = false
      ∧ x.1.GroupClose = false) →
    boundClause 0 l = " " ++ chainedConditions l := by
  induction l with
  | nil => intro h; exact absurd rfl h
  | cons x rest ih =>
    intro _ h
    obtain ⟨f, i⟩ := x
    have hx : f.Operator.isComparison = true ∧ f.GroupOpen = false ∧ f.GroupClose = false :=
      h (f, i) (List.mem_cons_self _ _)
    obtain ⟨hcmp, ho, hc⟩ := hx
    have hname : f.resolvedName = f.aliasedName := by
      simp [Field.resolvedName, ho]
    have hop : f.resolvedOperator.text =
        (if f.Operator = .blank then operatorField.Equals.text else f.Operator.text) := by
      unfold Field.resolvedOperator
      split_ifs <;> rfl
    have hck : f.resolvedChainingKey.text = chainingWord f := by
      have hp : f.Operator ≠ .Parenthesis := by
        intro hp; simp [hp, operatorField.isComparison] at hcmp
      unfold Field.resolvedChainingKey chainingWord
      rw [if_neg hp]
      split_ifs <;> rfl
    rw [boundClause, (closingText_no_groups f _ ho hc).1, (closingText_no_groups f true ho hc).2,
      hname, hop, hck]
    cases rest with
    | nil => simp [boundClause, chainedConditions, comparisonCondition, String.append_assoc]
    | cons g rest2 =>
      rw [ih (by simp) (fun y hy => h y (List.mem_cons_of_mem _ hy))]
      simp [chainedConditions, comparisonCondition, String.append_assoc]

/-- C9: for every list of n >= 1 bound-value comparison filters without group markers,
`BuildSQLWhere` returns `WHERE ` followed by the n conditions in input order; conditions i and
i+1 are separated by the i-th field's ChainingKey between single spaces (AND when it is blank),
a blank operator is emitted as Equals, and nothing follows the last condition. -/
theorem comparisons_are_chained_in_order [CaseTable] (fields : List Field) (hne : fields ≠ [])
    (hall : ∀ f ∈ fields, f.Operator.isComparison = true ∧ f.IsValueFromTable = false
      ∧ f.GroupOpen = false ∧ f.GroupClose = false) :
    (BuildSQLWhere fields).1 =
      "WHERE " ++ chainedConditions (fields.zip (paramIndices 1 fields.length)) := by
  have hb : ∀ f ∈ fields, f.isBoundComparison = true := by
    intro f hf
    obtain ⟨h1, h2, _⟩ := hall f hf
    simp [Field.isBoundComparison, h1, h2]
  rw [BuildSQLWhere_bound fields hne hb, boundClause_eq_chained]
  · show "WHERE" ++ (" " ++ _) = "WHERE " ++ _
    rw [← String.append_assoc]
    rfl
  · cases fields with
    | nil => exact absurd rfl hne
    | cons f rest => simp [paramIndices, List.iterate]
  · intro x hx
    obtain ⟨h1, _, h3, h4⟩ := hall x.1 (List.of_mem_zip hx).1
    exact ⟨h1, h3, h4⟩

/-- Witness for C9: three comparisons chained by OR and the default AND; the key of the last
field is not emitted. -/
theorem comparisons_are_chained_in_order_witness :
    ([({ Name := "AÑO", Source := "t", Value := .int 1, ChainingKey := .Or } : Field),
        { Name := "b", Operator := .LessThan, Value := .int 2 },
        { Name := "c", Value := .int 3, ChainingKey := .Or }] ≠ []
      ∧ ∀ f ∈ [({ Name := "AÑO", Source := "t", Value := .int 1, ChainingKey := .Or } : Field),
          { Name := "b", Operator := .LessThan, Value := .int 2 },
          { Name := "c", Value := .int 3, ChainingKey := .Or }],
        f.Operator.isComparison = true ∧ f.IsValueFromTable = false
          ∧ f.GroupOpen = false ∧ f.GroupClose = false)
      ∧ (BuildSQLWhere
          [({ Name := "AÑO", Source := "t", Value := .int 1, ChainingKey := .Or } : Field),
            { Name := "b", Operator := .LessThan, Value := .int 2 },
            { Name := "c", Value := .int 3, ChainingKey := .Or }]).1
          = "WHERE t.año = $1 OR b < $2 AND c = $3" :=
  ⟨⟨by decide, by decide⟩,
    (comparisons_are_chained_in_order
      [({ Name := "AÑO", Source := "t", Value := .int 1, ChainingKey := .Or } : Field),
        { Name := "b", Operator := .LessThan, Value := .int 2 },
        { Name := "c", Value := .int 3, ChainingKey := .Or }] (by decide) (by decide)).trans
      (by decide)⟩

/-! ### In, NotIn and Between -/

/-- C3 (defect): a NotIn field is encoded inline, without a placeholder, like an In field, yet
both assemblers append its collection to the args and advance the parameter counter: the next
field gets `$2` although no `$1` exists, and the args start with the collection. The same
list with In instead of NotIn takes no slot. -/
theorem not_in_consumes_a_parameter_slot :
    BuildSQLWhere [({ Name := "a", Operator := .NotIn, Value := .ints [1, 2] } : Field),
        { Name := "b", Value := .int 5 }]
        = ("WHERE a NOT IN (1,2) AND b = $2", some [.ints [1, 2], .int 5])
      ∧ BuildSQLWhereWithSequence
          [({ Name := "a", Operator := .NotIn, Value := .ints [1, 2] } : Field),
            { Name := "b", Value := .int 5 }] 1
        = ("WHERE a NOT IN (1,2) AND b = $2", some [.ints [1, 2], .int 5])
      ∧ BuildSQLWhere [({ Name := "a", Operator := .In, Value := .ints [1, 2] } : Field),
          { Name := "b", Value := .int 5 }]
        = ("WHERE a IN (1,2) AND b = $1", some [.int 5]) := by
  decide

theorem loop_append [CaseTable] (L : Nat) (xs ys : List Field) :
    ∀ (key : Nat) (st : WhereState),
      BuildSQLWhere.loop L key st (xs ++ ys) =
        match BuildSQLWhere.loop L key st xs with
        | .error err => .error err
        | .ok st1 => BuildSQLWhere.loop L (key + xs.length) st1 ys := by
  induction xs with
  | nil => intro key st; simp [BuildSQLWhere.loop]
  | cons x rest ih =>
    intro key st
    simp only [List.cons_append, BuildSQLWhere.loop]
    cases hb : BuildSQLWhere.body (key == L) st x with
    | error e => simp
    | ok st1 =>
      simp only
      have h := ih (key + 1) st1
      rw [show rest.append ys = rest ++ ys from rfl, h]
      simp [Nat.add_assoc, Nat.add_comm 1]

theorem body_takesNoSlot [CaseTable] (isLast : Bool) (st : WhereState) (f : Field)
    (h : f.takesNoSlot = true) :
    ∃ st1, BuildSQLWhere.body isLast st f = .ok st1
      ∧ st1.paramSequence = st.paramSequence := by
  have key : ∀ q p, whereSwitch (resolveField f) st.query st.paramSequence = .ok (q, p) →
      p = st.paramSequence →
      (skipsArgs (resolveField f) = true ∨ f.Operator = .Parenthesis) →
      ∃ st1, BuildSQLWhere.body isLast st f = .ok st1
        ∧ st1.paramSequence = st.paramSequence := by
    intro q p hsw hp hs
    refine ⟨_, body_of_switch isLast st f q p hsw, ?_⟩
    simp [hs, hp]
  unfold Field.takesNoSlot at h
  cases hop : f.Operator <;> rw [hop] at h <;> simp [operatorField.isComparison] at h
  case In =>
    exact key _ _ (whereSwitch_in f _ _ (Or.inl hop)) rfl
      (Or.inl (by simp [skipsArgs, resolveField_Operator, Field.resolvedOperator, hop]))
  case IsNull =>
    exact key _ _ (whereSwitch_null f _ _ (Or.inl hop)) rfl
      (Or.inl (by simp [skipsArgs, resolveField_Operator, Field.resolvedOperator, hop]))
  case IsNotNull =>
    exact key _ _ (whereSwitch_null f _ _ (Or.inr hop)) rfl
      (Or.inl (by simp [skipsArgs, resolveField_Operator, Field.resolvedOperator, hop]))
  case Parenthesis =>
    exact key _ _ (whereSwitch_parenthesis f _ _ hop) rfl (Or.inr hop)
  all_goals
    have hsw := whereSwitch_comparison f st.query st.paramSequence
      (by simp [hop, operatorField.isComparison])
    rw [if_pos h] at hsw
    exact key _ _ hsw rfl
      (Or.inl (by simp [skipsArgs, resolveField_IsValueFromTable, h]))

theorem loop_takesNoSlot [CaseTable] (L : Nat) (mid : List Field) :
    ∀ (key : Nat) (st : WhereState), (∀ f ∈ mid, f.takesNoSlot = true) →
      ∃ st1, BuildSQLWhere.loop L key st mid = .ok st1
        ∧ st1.paramSequence = st.paramSequence := by
  induction mid with
  | nil => intro key st _; exact ⟨st, by simp [BuildSQLWhere.loop], rfl⟩
  | cons f rest ih =>
    intro key st h
    obtain ⟨st1, hb, hp⟩ := body_takesNoSlot (key == L) st f (h f (List.mem_cons_self _ _))
    obtain ⟨st2, hl, hp2⟩ := ih (key + 1) st1 (fun g hg => h g (List.mem_cons_of_mem _ hg))
    refine ⟨st2, ?_, hp2.trans hp⟩
    rw [BuildSQLWhere.loop, hb]
    exact hl

theorem body_between [CaseTable] (isLast : Bool) (st : WhereState) (b : Field)
    (hop : b.Operator = .Between) (hlo : b.FromValue ≠ .nil) (hhi : b.ToValue ≠ .nil)
    (hvt : b.IsValueFromTable = false) :
    BuildSQLWhere.body isLast st b =
      .ok ⟨st.query ++ (" " ++ ToLower b.resolvedName ++ " BETWEEN $"
              ++ fmtInt st.paramSequence ++ " AND $" ++ fmtInt (intAdd st.paramSequence 1)
              ++ closingText b isLast st.nGroups ++ chainingText b isLast),
           goAppend (if b.Value ≠ .nil then goAppend st.args [b.Value] else st.args)
             [b.FromValue, b.ToValue],
           groupsAfter b st.nGroups, intWrap (st.paramSequence + 2)⟩ := by
  have hsw := whereSwitch_between b st.query st.paramSequence hop
  rw [if_neg (by simp [hlo, hhi])] at hsw
  rw [body_of_switch isLast st b _ _ hsw]
  have hskip : skipsArgs (resolveField b) = false := by
    simp [skipsArgs, resolveField_Operator, resolveField_IsValueFromTable,
      Field.resolvedOperator, hop, hvt]
  have happ : appendArgs (resolveField b) st.args =
      goAppend (if b.Value ≠ .nil then goAppend st.args [b.Value] else st.args)
        [b.FromValue, b.ToValue] := by
    simp [appendArgs, resolveField_Operator, resolveField_Value, resolveField_FromValue,
      resolveField_ToValue, Field.resolvedOperator, hop]
  have hadd : intAdd (intAdd st.paramSequence 1) 1 = intWrap (st.paramSequence + 2) := by
    unfold intAdd intWrap; omega
  simp [hskip, happ, hop, hadd, String.append_assoc]

theorem body_placeholder [CaseTable] (isLast : Bool) (st : WhereState) (f : Field)
    (h : (f.Operator.isComparison = true ∧ f.IsValueFromTable = false)
      ∨ (f.Operator = .Between ∧ f.FromValue ≠ .nil ∧ f.ToValue ≠ .nil)) :
    ∃ st1 tail, BuildSQLWhere.body isLast st f = .ok st1
      ∧ st1.query = st.query ++ (" " ++ ToLower f.resolvedName ++ " "
          ++ f.resolvedOperator.text ++ " $" ++ fmtInt st.paramSequence) ++ tail := by
  rcases h with ⟨hc, hv⟩ | ⟨hop, hlo, hhi⟩
  · have hb : f.isBoundComparison = true := by simp [Field.isBoundComparison, hc, hv]
    refine ⟨_, closingText f isLast st.nGroups
      ++ (if isLast = true then "" else " " ++ f.resolvedChainingKey.text),
      body_bound isLast st f hb, ?_⟩
    simp only [String.append_assoc]
  · have hsw := whereSwitch_between f st.query st.paramSequence hop
    rw [if_neg (by simp [hlo, hhi])] at hsw
    refine ⟨_, " AND $" ++ fmtInt (intAdd st.paramSequence 1)
      ++ closingText f isLast st.nGroups ++ chainingText f isLast,
      body_of_switch isLast st f _ _ hsw, ?_⟩
    have ht : f.resolvedOperator.text = "BETWEEN" := by
      simp [Field.resolvedOperator, hop, operatorField.text]
    simp only [ht, String.append_assoc]
    rfl

/-- The counter after a Between that is not marked IsValueFromTable: in `BuildSQLWhere`, such
a field with both bounds set, reached when the parameter counter is i, is emitted as
`name BETWEEN $i AND $i+1` and leaves the counter at i+2; In, IsNull, IsNotNull,
BareParenthesis and cross-column comparisons keep it there, so the next bound-value comparison
or Between is emitted with `$i+2`. -/
theorem between_takes_two_slots [CaseTable] (L key : Nat) (st : WhereState) (b nxt : Field)
    (mid rest : List Field)
    (hop : b.Operator = .Between) (hlo : b.FromValue ≠ .nil) (hhi : b.ToValue ≠ .nil)
    (hvt : b.IsValueFromTable = false)
    (hmid : ∀ f ∈ mid, f.takesNoSlot = true)
    (hnxt : (nxt.Operator.isComparison = true ∧ nxt.IsValueFromTable = false)
      ∨ (nxt.Operator = .Between ∧ nxt.FromValue ≠ .nil ∧ nxt.ToValue ≠ .nil)) :
    ∃ st1 st2 st3 tail,
      BuildSQLWhere.body (key == L) st b = .ok st1
      ∧ st1.query = st.query ++ (" " ++ ToLower b.resolvedName ++ " BETWEEN $"
              ++ fmtInt st.paramSequence ++ " AND $" ++ fmtInt (intAdd st.paramSequence 1)
              ++ closingText b (key == L) st.nGroups ++ chainingText b (key == L))
      ∧ st1.paramSequence = intWrap (st.paramSequence + 2)
      ∧ BuildSQLWhere.loop L (key + 1) st1 mid = .ok st2
      ∧ st2.paramSequence = intWrap (st.paramSequence + 2)
      ∧ BuildSQLWhere.body (key + 1 + mid.length == L) st2 nxt = .ok st3
      ∧ st3.query = st2.query ++ (" " ++ ToLower nxt.resolvedName ++ " "
              ++ nxt.resolvedOperator.text ++ " $"
              ++ fmtInt (intWrap (st.paramSequence + 2))) ++ tail
      ∧ BuildSQLWhere.loop L key st (b :: (mid ++ nxt :: rest)) =
          BuildSQLWhere.loop L (key + 1 + mid.length + 1) st3 rest := by
  have hb := body_between (key == L) st b hop hlo hhi hvt
  obtain ⟨st2, hl, hp⟩ := loop_takesNoSlot L mid (key + 1)
    ⟨st.query ++ (" " ++ ToLower b.resolvedName ++ " BETWEEN $"
        ++ fmtInt st.paramSequence ++ " AND $" ++ fmtInt (intAdd st.paramSequence 1)
        ++ closingText b (key == L) st.nGroups ++ chainingText b (key == L)),
      goAppend (if b.Value ≠ .nil then goAppend st.args [b.Value] else st.args)
        [b.FromValue, b.ToValue],
      groupsAfter b st.nGroups, intWrap (st.paramSequence + 2)⟩ hmid
  obtain ⟨st3, tail, hn, hq⟩ := body_placeholder (key + 1 + mid.length == L) st2 nxt hnxt
  refine ⟨_, st2, st3, tail, hb, rfl, rfl, hl, hp, hn, ?_, ?_⟩
  · rw [hq, hp]
  · rw [BuildSQLWhere.loop, hb]
    simp only
    rw [loop_append, hl]
    simp only
    rw [BuildSQLWhere.loop, hn]

/-- Between, then an In field, then an Equals filter, from the start state. -/
theorem between_takes_two_slots_witness :
    (sampleBetween.Operator = .Between ∧ sampleBetween.FromValue ≠ .nil
        ∧ sampleBetween.ToValue ≠ .nil ∧ sampleBetween.IsValueFromTable = false
        ∧ (∀ f ∈ [sampleIn], f.takesNoSlot = true)
        ∧ ((sampleEquals.Operator.isComparison = true ∧ sampleEquals.IsValueFromTable = false)
          ∨ (sampleEquals.Operator = .Between ∧ sampleEquals.FromValue ≠ .nil
            ∧ sampleEquals.ToValue ≠ .nil)))
      ∧ ∃ st1 st2 st3 tail,
          BuildSQLWhere.body (0 == 2) whereStart sampleBetween = .ok st1
          ∧ st1.query = whereStart.query ++ (" " ++ ToLower sampleBetween.resolvedName
                ++ " BETWEEN $" ++ fmtInt whereStart.paramSequence ++ " AND $"
                ++ fmtInt (intAdd whereStart.paramSequence 1)
                ++ closingText sampleBetween (0 == 2) whereStart.nGroups
                ++ chainingText sampleBetween (0 == 2))
          ∧ st1.paramSequence = intWrap (whereStart.paramSequence + 2)
          ∧ BuildSQLWhere.loop 2 (0 + 1) st1 [sampleIn] = .ok st2
          ∧ st2.paramSequence = intWrap (whereStart.paramSequence + 2)
          ∧ BuildSQLWhere.body (0 + 1 + [sampleIn].length == 2) st2 sampleEquals = .ok st3
          ∧ st3.query = st2.query ++ (" " ++ ToLower sampleEquals.resolvedName ++ " "
                ++ sampleEquals.resolvedOperator.text ++ " $"
                ++ fmtInt (intWrap (whereStart.paramSequence + 2))) ++ tail
          ∧ BuildSQLWhere.loop 2 0 whereStart
              (sampleBetween :: ([sampleIn] ++ sampleEquals :: []))
            = BuildSQLWhere.loop 2 (0 + 1 + [sampleIn].length + 1) st3 [] :=
  ⟨⟨rfl, by decide, by decide, rfl, by decide, Or.inl (by decide)⟩,
    between_takes_two_slots 2 0 whereStart sampleBetween sampleEquals [sampleIn] []
      rfl (by decide) (by decide) rfl (by decide) (Or.inl (by decide))⟩

/-- C4 (defect): a Between field with both bounds set that is also marked IsValueFromTable
is emitted with `$1` and `$2`, yet the `continue` for IsValueFromTable skips the final
increment: the counter is left at 2, the next field gets `$2` again, and the bounds are not
appended. The same list without the mark numbers the next field `$3`. -/
theorem cross_column_between_advances_by_one :
    BuildSQLWhere
        [({ Name := "a", Operator := .Between, FromValue := .int 1, ToValue := .int 2,
            IsValueFromTable := true } : Field),
          { Name := "b", Value := .int 5 }]
      = ("WHERE a BETWEEN $1 AND $2 AND b = $2", some [.int 5])
      ∧ BuildSQLWhere
        [({ Name := "a", Operator := .Between, FromValue := .int 1, ToValue := .int 2 } : Field),
          { Name := "b", Value := .int 5 }]
      = ("WHERE a BETWEEN $1 AND $2 AND b = $3", some [.int 1, .int 2, .int 5]) := by
  decide

/-- C5 (amended): in `BuildSQLWhere`, a Between field with bounds (lo, hi), a nil Value and
IsValueFromTable false appends exactly `[lo, hi]`, in that order, to the args, next to its two
consecutive placeholders, wherever it stands in a filter list; alone in the list it returns
the args `[lo, hi]`. -/
theorem between_appends_its_bounds [CaseTable] (L key : Nat) (st : WhereState) (b : Field)
    (rest : List Field)
    (hop : b.Operator = .Between) (hlo : b.FromValue ≠ .nil) (hhi : b.ToValue ≠ .nil)
    (hvt : b.IsValueFromTable = false) (hval : b.Value = .nil) :
    BuildSQLWhere.loop L key st (b :: rest) =
        BuildSQLWhere.loop L (key + 1)
          ⟨st.query ++ (" " ++ ToLower b.resolvedName ++ " BETWEEN $"
              ++ fmtInt st.paramSequence ++ " AND $" ++ fmtInt (intAdd st.paramSequence 1)
              ++ closingText b (key == L) st.nGroups ++ chainingText b (key == L)),
            some (st.args.getD [] ++ [b.FromValue, b.ToValue]),
            groupsAfter b st.nGroups, intWrap (st.paramSequence + 2)⟩ rest
      ∧ BuildSQLWhere [b] =
          ("WHERE" ++ (" " ++ ToLower b.resolvedName ++ " BETWEEN $1 AND $2"
              ++ closingText b true 0),
            some [b.FromValue, b.ToValue]) := by
  have hb := fun isLast st => body_between isLast st b hop hlo hhi hvt
  constructor
  · rw [BuildSQLWhere.loop, hb]
    simp [hval, goAppend]
  · unfold BuildSQLWhere
    simp only [List.isEmpty_cons, Bool.false_eq_true, if_false, List.length_singleton,
      Nat.sub_self, BuildSQLWhere.loop, hb]
    have h1 : fmtInt 1 = "1" := by decide
    have h2 : fmtInt (intAdd 1 1) = "2" := by decide
    simp [hval, goAppend, chainingText, h1, h2, String.append_assoc]

/-- Witness for C5: the sample Between after one argument has been collected. -/
theorem between_appends_its_bounds_witness :
    (sampleBetween.Operator = .Between ∧ sampleBetween.FromValue ≠ .nil
        ∧ sampleBetween.ToValue ≠ .nil ∧ sampleBetween.IsValueFromTable = false
        ∧ sampleBetween.Value = .nil)
      ∧ BuildSQLWhere [sampleBetween] =
          ("WHERE" ++ (" " ++ ToLower sampleBetween.resolvedName ++ " BETWEEN $1 AND $2"
              ++ closingText sampleBetween true 0),
            some [sampleBetween.FromValue, sampleBetween.ToValue]) :=
  ⟨⟨rfl, by decide, by decide, rfl, rfl⟩,
    (between_appends_its_bounds 0 0 whereStart sampleBetween [] rfl (by decide) (by decide)
      rfl rfl).2⟩

/-- Counterexample to C5 as stated: a Between field that also carries a Value contributes three
args, and one marked IsValueFromTable contributes none, next to the same two placeholders. -/
theorem between_args_depend_on_value_and_cross_column :
    BuildSQLWhere
        [({ Name := "a", Operator := .Between, Value := .int 7, FromValue := .int 1,
            ToValue := .int 2 } : Field)]
      = ("WHERE a BETWEEN $1 AND $2", some [.int 7, .int 1, .int 2])
      ∧ BuildSQLWhere
          [({ Name := "a", Operator := .Between, FromValue := .int 1, ToValue := .int 2,
              IsValueFromTable := true } : Field)]
        = ("WHERE a BETWEEN $1 AND $2", none) := by
  decide

/-! ### Balanced parentheses -/

theorem parenScan_append (xs ys : List Char) :
    ∀ d : Nat, parenScan (xs ++ ys) d = (parenScan xs d).bind (parenScan ys) := by
  induction xs with
  | nil => intro d; simp [parenScan]
  | cons c cs ih =>
    intro d
    simp only [List.cons_append, parenScan]
    split_ifs <;> simp [ih]

theorem scans_append {a b : String} {d e g : Nat} (ha : Scans a d e) (hb : Scans b e g) :
    Scans (a ++ b) d g := by
  unfold Scans at *
  rw [String.data_append, parenScan_append, ha]
  exact hb

theorem parenScan_noParens (cs : List Char) :
    ∀ d : Nat, (∀ c ∈ cs, c ≠ '(' ∧ c ≠ ')') → parenScan cs d = some d := by
  induction cs with
  | nil => intro d _; rfl
  | cons c cs ih =>
    intro d h
    have hc := h c (List.mem_cons_self _ _)
    simp only [parenScan, hc.1, hc.2, if_false]
    exact ih d (fun x hx => h x (List.mem_cons_of_mem _ hx))

theorem hasNoParens_iff (s : String) :
    hasNoParens s = true ↔ ∀ c ∈ s.data, c ≠ '(' ∧ c ≠ ')' := by
  simp [hasNoParens, List.all_eq_true]

theorem scans_noParens {s : String} (h : hasNoParens s = true) (d : Nat) : Scans s d d :=
  parenScan_noParens _ d ((hasNoParens_iff s).mp h)

theorem hasNoParens_append {a b : String} (ha : hasNoParens a = true)
    (hb : hasNoParens b = true) : hasNoParens (a ++ b) = true := by
  rw [hasNoParens_iff] at *
  intro c hc
  rw [String.data_append, List.mem_append] at hc
  rcases hc with hc | hc
  · exact ha c hc
  · exact hb c hc

theorem toLower_ne_paren (c : Char) (h : c ≠ '(' ∧ c ≠ ')') :
    c.toLower ≠ '(' ∧ c.toLower ≠ ')' := by
  simp only [Char.toLower]
  split_ifs with hu
  · generalize c.toNat = n at hu
    obtain ⟨h1, h2⟩ := hu
    interval_cases n <;> decide
  · exact h

theorem unicodeToLower_ne_paren [CaseTable] (c : Char) (h : c ≠ '(' ∧ c ≠ ')') :
    unicodeToLower c ≠ '(' ∧ unicodeToLower c ≠ ')' := by
  unfold unicodeToLower
  split_ifs with ha
  · exact toLower_ne_paren c h
  · exact CaseTable.lower_ne_paren c (by omega)

theorem hasNoParens_ToLower [CaseTable] {s : String} (h : hasNoParens s = true) :
    hasNoParens (ToLower s) = true := by
  rw [hasNoParens_iff] at *
  intro c hc
  simp only [ToLower, List.mem_map] at hc
  obtain ⟨c0, hc0, rfl⟩ := hc
  exact unicodeToLower_ne_paren c0 (h c0 hc0)

theorem digitChar_ne_paren (n : Nat) :
    Nat.digitChar (n % 10) ≠ '(' ∧ Nat.digitChar (n % 10) ≠ ')' := by
  have h : n % 10 < 10 := Nat.mod_lt _ (by norm_num)
  generalize n % 10 = m at h
  interval_cases m <;> decide

theorem toDigitsCore_noParens (fuel : Nat) :
    ∀ (n : Nat) (ds : List Char), (∀ c ∈ ds, c ≠ '(' ∧ c ≠ ')') →
      ∀ c ∈ Nat.toDigitsCore 10 fuel n ds, c ≠ '(' ∧ c ≠ ')' := by
  induction fuel with
  | zero => intro n ds h; simpa [Nat.toDigitsCore] using h
  | succ fuel ih =>
    intro n ds h
    have hcons : ∀ c ∈ Nat.digitChar (n % 10) :: ds, c ≠ '(' ∧ c ≠ ')' := by
      intro c hc
      rcases List.mem_cons.mp hc with rfl | hc
      · exact digitChar_ne_paren _
      · exact h c hc
    simp only [Nat.toDigitsCore]
    split_ifs
    · exact hcons
    · exact ih _ _ hcons

theorem hasNoParens_fmtNat (n : Nat) : hasNoParens (fmtNat n) = true := by
  rw [hasNoParens_iff]
  simp only [fmtNat, Nat.repr, Nat.toDigits, List.asString]
  exact toDigitsCore_noParens _ _ _ (by simp)

theorem hasNoParens_fmtInt (i : Int) : hasNoParens (fmtInt i) = true := by
  cases i with
  | ofNat n => exact hasNoParens_fmtNat n
  | negSucc n => exact hasNoParens_append (by decide) (hasNoParens_fmtNat _)

theorem parenScan_replicate (m : Nat) :
    ∀ k : Nat, parenScan (List.replicate m ')') (m + k) = some k := by
  induction m with
  | zero => intro k; simp [parenScan]
  | succ m ih =>
    intro k
    have h : m + 1 + k ≠ 0 := by omega
    simp only [List.replicate, parenScan, if_neg h]
    rw [show m + 1 + k - 1 = m + k by omega]
    simpa using ih k

theorem scans_closingText (f : Field) (isLast : Bool) (n : Nat) :
    Scans (closingText f isLast n) (openedGroups f n)
      (if isLast = true then 0 else groupsAfter f n) := by
  unfold closingText
  have h1 : Scans (if openedGroups f n > 0 ∧ f.GroupClose = true then ")" else "")
      (openedGroups f n) (groupsAfter f n) := by
    unfold groupsAfter
    split_ifs with h
    · have h0 : openedGroups f n ≠ 0 := by omega
      simp [Scans, parenScan, h0]
    · simp [Scans, parenScan]
  have h2 : Scans (if groupsAfter f n > 0 ∧ isLast = true then Repeat ')' (groupsAfter f n)
      else "") (groupsAfter f n) (if isLast = true then 0 else groupsAfter f n) := by
    split_ifs with h h3 h3
    · have := parenScan_replicate (groupsAfter f n) 0
      simpa [Scans, Repeat] using this
    · exact absurd h.2 h3
    · have h0 : groupsAfter f n = 0 := by
        by_contra hne
        exact h ⟨Nat.pos_of_ne_zero hne, h3⟩
      simp [Scans, parenScan, h0]
    · simp [Scans, parenScan]
  exact scans_append h1 h2

theorem hasNoParens_aliasedName (f : Field) (hn : hasNoParens f.Name = true)
    (hs : hasNoParens f.Source = true) : hasNoParens f.aliasedName = true := by
  unfold Field.aliasedName
  split_ifs
  · exact hn
  · exact hasNoParens_append (hasNoParens_append hs (by decide)) hn

theorem hasNoParens_aliasedTarget (f : Field) (hn : hasNoParens f.NameValueFromTable = true)
    (hs : hasNoParens f.SourceNameValueFromTable = true) :
    hasNoParens f.aliasedTarget = true := by
  unfold Field.aliasedTarget
  split_ifs
  · exact hn
  · exact hasNoParens_append (hasNoParens_append hs (by decide)) hn

theorem ToLower_append [CaseTable] (a b : String) : ToLower (a ++ b) = ToLower a ++ ToLower b := by
  apply String.ext
  simp [ToLower]

theorem scans_resolvedName [CaseTable] (f : Field) (hn : hasNoParens f.Name = true)
    (hs : hasNoParens f.Source = true) (d : Nat) :
    Scans (ToLower f.resolvedName) d (openedGroups f d) := by
  have ha := hasNoParens_ToLower (hasNoParens_aliasedName f hn hs)
  unfold Field.resolvedName openedGroups
  split_ifs with h1 h2 h3
  · show parenScan (ToLower " (").data d = some (d + 1)
    have : (ToLower " (").data = [' ', '('] := by rfl
    rw [this]
    simp [parenScan]
  · exact absurd h1.2 h2
  · rw [ToLower_append]
    have hp : Scans (ToLower "(") d (d + 1) := by
      show parenScan (ToLower "(").data d = some (d + 1)
      have : (ToLower "(").data = ['('] := by rfl
      rw [this]
      simp [parenScan]
    exact scans_append hp (scans_noParens ha _)
  · exact scans_noParens ha _

theorem hasNoParens_operator_text (op : operatorField) (h : op ≠ .Parenthesis) :
    hasNoParens op.text = true := by
  cases op <;> first | decide | exact absurd rfl h

theorem hasNoParens_chainingKey_text (ck : chainingKey) : hasNoParens ck.text = true := by
  cases ck <;> decide

theorem hasNoParens_chainingText (f : Field) (isLast : Bool) :
    hasNoParens (chainingText f isLast) = true := by
  unfold chainingText
  split_ifs
  · exact hasNoParens_append (by decide) (hasNoParens_chainingKey_text _)
  · decide

theorem resolvedOperator_ne_Parenthesis (f : Field) (h : f.Operator ≠ .Parenthesis) :
    f.resolvedOperator ≠ .Parenthesis := by
  intro hp
  exact h ((resolvedOperator_eq_Parenthesis f).mp hp)

/-- For a field C10 covers, the switch succeeds and the text it appends takes the parenthesis
depth from `d` to the depth after a possible GroupOpen. -/
theorem whereSwitch_scans [CaseTable] (f : Field) (q : String) (p : Int)
    (hn : hasNoParens f.Name = true) (hs : hasNoParens f.Source = true)
    (hnv : hasNoParens f.NameValueFromTable = true)
    (hsv : hasNoParens f.SourceNameValueFromTable = true)
    (hop : f.Operator.isGroupable = true) :
    ∃ piece p1, whereSwitch (resolveField f) q p = .ok (q ++ piece, p1)
      ∧ ∀ d, Scans piece d (openedGroups f d) := by
  have hname := scans_resolvedName f hn hs
  have htarget := hasNoParens_ToLower (hasNoParens_aliasedTarget f hnv hsv)
  by_cases hpar : f.Operator = .Parenthesis
  · exact ⟨_, _, whereSwitch_parenthesis f q p hpar, hname⟩
  by_cases hnull : f.Operator = .IsNull ∨ f.Operator = .IsNotNull
  · refine ⟨_, _, whereSwitch_null f q p hnull, fun d => ?_⟩
    exact scans_append (scans_append (scans_append (scans_noParens (by decide) d) (hname d))
      (scans_noParens (by decide) _)) (scans_noParens (hasNoParens_operator_text _ hpar) _)
  have hcmp : f.Operator.isComparison = true := by
    simp only [operatorField.isGroupable, Bool.or_eq_true, decide_eq_true_eq] at hop
    rcases hop with ((h | h) | h) | h
    · exact h
    · exact absurd (Or.inl h) hnull
    · exact absurd (Or.inr h) hnull
    · exact absurd h hpar
  have hot := hasNoParens_operator_text _ (resolvedOperator_ne_Parenthesis f hpar)
  have hsw := whereSwitch_comparison f q p hcmp
  by_cases hvt : f.IsValueFromTable = true
  · rw [if_pos hvt] at hsw
    refine ⟨_, _, hsw, fun d => ?_⟩
    exact scans_append (scans_append (scans_append (scans_append (scans_append
      (scans_noParens (by decide) d) (hname d)) (scans_noParens (by decide) _))
      (scans_noParens hot _)) (scans_noParens (by decide) _)) (scans_noParens htarget _)
  · rw [if_neg hvt] at hsw
    refine ⟨_, _, hsw, fun d => ?_⟩
    exact scans_append (scans_append (scans_append (scans_append (scans_append
      (scans_noParens (by decide) d) (hname d)) (scans_noParens (by decide) _))
      (scans_noParens hot _)) (scans_noParens (by decide) _))
      (scans_noParens (hasNoParens_fmtInt _) _)

theorem body_scans [CaseTable] (isLast : Bool) (st : WhereState) (f : Field)
    (hn : hasNoParens f.Name = true) (hs : hasNoParens f.Source = true)
    (hnv : hasNoParens f.NameValueFromTable = true)
    (hsv : hasNoParens f.SourceNameValueFromTable = true)
    (hop : f.Operator.isGroupable = true)
    (hinv : Scans st.query 0 st.nGroups) :
    ∃ st1, BuildSQLWhere.body isLast st f = .ok st1
      ∧ Scans st1.query 0 (if isLast = true then 0 else st1.nGroups) := by
  obtain ⟨piece, p1, hsw, hpiece⟩ :=
    whereSwitch_scans f st.query st.paramSequence hn hs hnv hsv hop
  refine ⟨_, body_of_switch isLast st f _ _ hsw, ?_⟩
  simp only
  have h1 := scans_append (scans_append hinv (hpiece st.nGroups))
    (scans_closingText f isLast st.nGroups)
  exact scans_append h1 (scans_noParens (hasNoParens_chainingText f isLast) _)

theorem loop_scans [CaseTable] (L : Nat) (fields : List Field) :
    ∀ (key : Nat) (st : WhereState), fields ≠ [] → key + fields.length = L + 1 →
      (∀ f ∈ fields, hasNoParens f.Name = true ∧ hasNoParens f.Source = true
        ∧ hasNoParens f.NameValueFromTable = true
        ∧ hasNoParens f.SourceNameValueFromTable = true
        ∧ f.Operator.isGroupable = true) →
      Scans st.query 0 st.nGroups →
      ∃ st1, BuildSQLWhere.loop L key st fields = .ok st1 ∧ Scans st1.query 0 0 := by
  induction fields with
  | nil => intro key st h; exact absurd rfl h
  | cons f rest ih =>
    intro key st _ hk hall hinv
    obtain ⟨hn, hs, hnv, hsv, hop⟩ := hall f (List.mem_cons_self _ _)
    obtain ⟨st1, hb, hsc⟩ := body_scans (key == L) st f hn hs hnv hsv hop hinv
    have hlast := key_is_last L key rest (by simpa using hk)
    rw [BuildSQLWhere.loop, hb]
    simp only
    cases rest with
    | nil =>
      refine ⟨st1, by simp [BuildSQLWhere.loop], ?_⟩
      rw [hlast] at hsc
      simpa using hsc
    | cons g rest2 =>
      rw [hlast] at hsc
      exact ih (key + 1) st1 (by simp) (by simp at hk ⊢; omega)
        (fun x hx => hall x (List.mem_cons_of_mem _ hx)) (by simpa using hsc)

theorem parenScan_counts (cs : List Char) :
    ∀ d e : Nat, parenScan cs d = some e →
      d + cs.count '(' = e + cs.count ')'
        ∧ ∀ k, (cs.take k).count ')' ≤ d + (cs.take k).count '(' := by
  induction cs with
  | nil =>
    intro d e h
    simp only [parenScan, Option.some.injEq] at h
    simp [h]
  | cons c cs ih =>
    intro d e h
    simp only [parenScan] at h
    by_cases ho : c = '('
    · subst ho
      simp only [if_true] at h
      obtain ⟨h1, h2⟩ := ih _ _ h
      have hne : ('(' == ')') = false := by decide
      refine ⟨by simp [List.count_cons, hne]; omega, fun k => ?_⟩
      cases k with
      | zero => simp
      | succ k =>
        have := h2 k
        simp [List.take_succ_cons, List.count_cons, hne]; omega
    · by_cases hc : c = ')'
      · subst hc
        simp only [if_neg ho, if_true] at h
        by_cases hd : d = 0
        · simp [hd] at h
        · rw [if_neg hd] at h
          obtain ⟨h1, h2⟩ := ih _ _ h
          have hne : (')' == '(') = false := by decide
          refine ⟨by simp [List.count_cons, hne]; omega, fun k => ?_⟩
          cases k with
          | zero => simp
          | succ k =>
            have := h2 k
            simp [List.take_succ_cons, List.count_cons, hne]; omega
      · simp only [if_neg ho, if_neg hc] at h
        obtain ⟨h1, h2⟩ := ih _ _ h
        have hne1 : (c == '(') = false := by simpa using ho
        have hne2 : (c == ')') = false := by simpa using hc
        refine ⟨by simp [List.count_cons, hne1, hne2]; omega, fun k => ?_⟩
        cases k with
        | zero => simp
        | succ k =>
          have := h2 k
          simp [List.take_succ_cons, List.count_cons, hne1, hne2]; omega

/-- C10: for every non-empty filter list whose names (Name, Source and the cross-column names)
contain no parentheses and whose operators are comparisons, IsNull/IsNotNull or
BareParenthesis, the text of `BuildSQLWhere` has as many `(` as `)`, and no leading part of
it has more `)` than `(`. -/
theorem where_text_has_balanced_parentheses [CaseTable] (fields : List Field) (hne : fields ≠ [])
    (hall : ∀ f ∈ fields, hasNoParens f.Name = true ∧ hasNoParens f.Source = true
      ∧ hasNoParens f.NameValueFromTable = true
      ∧ hasNoParens f.SourceNameValueFromTable = true
      ∧ f.Operator.isGroupable = true) :
    (BuildSQLWhere fields).1.data.count '(' = (BuildSQLWhere fields).1.data.count ')'
      ∧ ∀ k, ((BuildSQLWhere fields).1.data.take k).count ')'
          ≤ ((BuildSQLWhere fields).1.data.take k).count '(' := by
  have hemp : fields.isEmpty = false := by
    cases fields with
    | nil => exact absurd rfl hne
    | cons _ _ => rfl
  have hlen : 0 + fields.length = (fields.length - 1) + 1 := by
    cases fields with
    | nil => exact absurd rfl hne
    | cons _ _ => simp
  obtain ⟨st1, hl, hsc⟩ := loop_scans (fields.length - 1) fields 0 ⟨"WHERE", none, 0, 1⟩
    hne hlen hall (scans_noParens (by decide) 0)
  have htext : (BuildSQLWhere fields).1 = st1.query := by
    unfold BuildSQLWhere
    rw [hl]
    simp [hemp]
  rw [htext]
  obtain ⟨h1, h2⟩ := parenScan_counts _ _ _ hsc
  exact ⟨by omega, fun k => by have := h2 k; omega⟩

/-- Witness for C10: a bare parenthesis opens a group that a later field closes, a stray
GroupClose emits nothing, and a second group left open is closed at the last field. -/
theorem where_text_has_balanced_parentheses_witness :
    ([({ Operator := .Parenthesis, GroupOpen := true } : Field),
        { Name := "a", Value := .int 1, ChainingKey := .Or },
        { Name := "b", Operator := .IsNull, GroupClose := true },
        { Name := "c", Value := .int 2, GroupClose := true },
        { Name := "d", Value := .int 3, GroupOpen := true },
        { Name := "e", Source := "t", Operator := .LessThan, IsValueFromTable := true,
          NameValueFromTable := "f" }] ≠ []
      ∧ ∀ f ∈ [({ Operator := .Parenthesis, GroupOpen := true } : Field),
          { Name := "a", Value := .int 1, ChainingKey := .Or },
          { Name := "b", Operator := .IsNull, GroupClose := true },
          { Name := "c", Value := .int 2, GroupClose := true },
          { Name := "d", Value := .int 3, GroupOpen := true },
          { Name := "e", Source := "t", Operator := .LessThan, IsValueFromTable := true,
            NameValueFromTable := "f" }],
        hasNoParens f.Name = true ∧ hasNoParens f.Source = true
          ∧ hasNoParens f.NameValueFromTable = true
          ∧ hasNoParens f.SourceNameValueFromTable = true
          ∧ f.Operator.isGroupable = true)
      ∧ (BuildSQLWhere [({ Operator := .Parenthesis, GroupOpen := true } : Field),
          { Name := "a", Value := .int 1, ChainingKey := .Or },
          { Name := "b", Operator := .IsNull, GroupClose := true },
          { Name := "c", Value := .int 2, GroupClose := true },
          { Name := "d", Value := .int 3, GroupOpen := true },
          { Name := "e", Source := "t", Operator := .LessThan, IsValueFromTable := true,
            NameValueFromTable := "f" }]).1.data.count '('
        = (BuildSQLWhere [({ Operator := .Parenthesis, GroupOpen := true } : Field),
          { Name := "a", Value := .int 1, ChainingKey := .Or },
          { Name := "b", Operator := .IsNull, GroupClose := true },
          { Name := "c", Value := .int 2, GroupClose := true },
          { Name := "d", Value := .int 3, GroupOpen := true },
          { Name := "e", Source := "t", Operator := .LessThan, IsValueFromTable := true,
            NameValueFromTable := "f" }]).1.data.count ')' :=
  ⟨⟨by decide, by decide⟩,
    (where_text_has_balanced_parentheses _ (by decide) (by decide)).1⟩

/-! ### Pagination, sort and composition -/

theorem uintSub_uintMul (p l : Nat) (hp : 1 ≤ p) (hl : l < 2 ^ 64) :
    uintSub (uintMul p l) l = ((p - 1) * l) % 2 ^ 64 := by
  unfold uintSub uintMul
  obtain ⟨q, rfl⟩ : ∃ q, p = q + 1 := ⟨p - 1, by omega⟩
  simp only [Nat.add_sub_cancel]
  have h1 : (q + 1) * l = q * l + l := by ring
  rw [h1]
  have h2 : (q * l + l) % 2 ^ 64 = ((q * l) % 2 ^ 64 + l) % 2 ^ 64 :=
    (Nat.mod_add_mod _ _ _).symm
  rw [h2]
  have hrlt : (q * l) % 2 ^ 64 < 2 ^ 64 := Nat.mod_lt _ (by norm_num)
  generalize (q * l) % 2 ^ 64 = r at hrlt
  by_cases hc : r + l < 2 ^ 64
  · rw [Nat.mod_eq_of_lt hc]
    have : r + l + 2 ^ 64 - l = r + 2 ^ 64 := by omega
    rw [this, Nat.add_mod_right, Nat.mod_eq_of_lt hrlt]
  · have h3 : (r + l) % 2 ^ 64 = r + l - 2 ^ 64 := by
      rw [Nat.mod_eq_sub_mod (by omega), Nat.mod_eq_of_lt (by omega)]
    rw [h3]
    have : r + l - 2 ^ 64 + 2 ^ 64 - l = r := by omega
    rw [this, Nat.mod_eq_of_lt hrlt]

/-- C12 (amended): for all Page, Limit and MaxLimit of the unsigned 64-bit range,
`BuildSQLPagination` returns `""` when Page = 0 and Limit = 0, and otherwise
`LIMIT L OFFSET O` with M = MaxLimit (100 if 0), L = M if Limit is 0 or above M and Limit
otherwise, P = Page (1 if 0) and O = (P - 1) * L modulo 2^64, which is (P - 1) * L whenever
that product is below 2^64; and 1 <= L <= M. -/
theorem pagination_limit_and_offset (pag : Pagination) (h : pag.inRange) :
    BuildSQLPagination pag =
        (if pag.Page = 0 ∧ pag.Limit = 0 then ""
         else "LIMIT " ++ fmtNat (effectiveLimit pag) ++ " OFFSET "
           ++ fmtNat (((effectivePage pag - 1) * effectiveLimit pag) % 2 ^ 64))
      ∧ ((effectivePage pag - 1) * effectiveLimit pag < 2 ^ 64 →
          ((effectivePage pag - 1) * effectiveLimit pag) % 2 ^ 64
            = (effectivePage pag - 1) * effectiveLimit pag)
      ∧ 1 ≤ effectiveLimit pag ∧ effectiveLimit pag ≤ effectiveMaxLimit pag
      ∧ BuildSQLPagination { Page := 2, Limit := 10, MaxLimit := 100 } = "LIMIT 10 OFFSET 10"
      ∧ BuildSQLPagination { Page := 1, Limit := 500, MaxLimit := 100 }
          = "LIMIT 100 OFFSET 0" := by
  obtain ⟨hp, hl, hm⟩ := h
  obtain ⟨P, Lm, M⟩ := pag
  simp only at hp hl hm
  have hM : 1 ≤ effectiveMaxLimit ⟨P, Lm, M⟩ := by
    unfold effectiveMaxLimit; dsimp only; split_ifs <;> omega
  have hMlt : effectiveMaxLimit ⟨P, Lm, M⟩ < 2 ^ 64 := by
    unfold effectiveMaxLimit; dsimp only; split_ifs <;> omega
  have hL1 : 1 ≤ effectiveLimit ⟨P, Lm, M⟩ := by
    unfold effectiveLimit; dsimp only; split_ifs <;> omega
  have hL2 : effectiveLimit ⟨P, Lm, M⟩ ≤ effectiveMaxLimit ⟨P, Lm, M⟩ := by
    unfold effectiveLimit; dsimp only; split_ifs <;> omega
  refine ⟨?_, fun hlt => Nat.mod_eq_of_lt hlt, hL1, hL2, by decide, by decide⟩
  by_cases h0 : P = 0 ∧ Lm = 0
  · simp [BuildSQLPagination, h0]
  · have h0' : ¬ (Lm = 0 ∧ P = 0) := fun hh => h0 ⟨hh.2, hh.1⟩
    rw [if_neg h0]
    set L := effectiveLimit ⟨P, Lm, M⟩ with hLdef
    set Pg := effectivePage ⟨P, Lm, M⟩ with hPdef
    have key : BuildSQLPagination ⟨P, Lm, M⟩ =
        "LIMIT " ++ fmtNat L ++ " OFFSET " ++ fmtNat (uintSub (uintMul Pg L) L) := by
      simp only [BuildSQLPagination, if_neg h0', hLdef, hPdef, effectiveLimit, effectivePage,
        effectiveMaxLimit, _defaultMaxLimit]
      by_cases hM0 : M = 0 <;> by_cases hL0 : Lm = 0 <;> by_cases hP0 : P = 0 <;>
        by_cases hgt : Lm > M <;> by_cases hgt2 : Lm > 100 <;>
        simp [hM0, hL0, hP0, hgt, hgt2]
    rw [key]
    have hPg : 1 ≤ Pg := by
      rw [hPdef]; unfold effectivePage; dsimp only; split_ifs <;> omega
    have hLlt : L < 2 ^ 64 := lt_of_le_of_lt hL2 hMlt
    have hoff := uintSub_uintMul Pg L hPg hLlt
    rw [hoff]

/-- Witness for C12: page 3 of 25 rows under the default maximum. -/
theorem pagination_limit_and_offset_witness :
    ({ Page := 3, Limit := 25 } : Pagination).inRange
      ∧ BuildSQLPagination { Page := 3, Limit := 25 } = "LIMIT 25 OFFSET 50" :=
  ⟨⟨by decide, by decide, by decide⟩,
    (pagination_limit_and_offset { Page := 3, Limit := 25 }
      ⟨by decide, by decide, by decide⟩).1.trans (by decide)⟩

/-- Counterexample to C12 as stated: with Page = 2^63 + 1 and Limit = 4 the product
(P - 1) * L is 2^65, but the unsigned arithmetic of the source wraps and the offset is 0. -/
theorem pagination_offset_wraps :
    BuildSQLPagination { Page := 2 ^ 63 + 1, Limit := 4, MaxLimit := 100 } = "LIMIT 4 OFFSET 0"
      ∧ BuildSQLPagination { Page := 2 ^ 63 + 1, Limit := 4, MaxLimit := 100 }
          ≠ "LIMIT 4 OFFSET " ++ fmtNat ((2 ^ 63 + 1 - 1) * 4) := by
  decide

theorem sort_resolved [CaseTable] (query : String) (sort : SortField) :
    query ++ " " ++ ToLower (setSortFieldAliases (setSortFieldOrder sort)).Name ++ " "
        ++ (setSortFieldAliases (setSortFieldOrder sort)).Order.text
      = query ++ (" " ++ sortEntry sort) := by
  obtain ⟨n, o, src⟩ := sort
  simp only [setSortFieldAliases, setSortFieldOrder, sortEntry]
  by_cases ho : o = .blank <;> by_cases hs : src = "" <;> simp [ho, hs, String.append_assoc]

theorem orderBy_loop [CaseTable] (length : Nat) (sorts : List SortField) :
    ∀ (key : Nat) (query : String), sorts ≠ [] → key + sorts.length = length →
      BuildSQLOrderBy.loop length key query sorts =
        query ++ " " ++ ", ".intercalate (sorts.map sortEntry) := by
  induction sorts with
  | nil => intro key query h; exact absurd rfl h
  | cons s rest ih =>
    intro key query _ hk
    simp only [List.length_cons] at hk
    simp only [BuildSQLOrderBy.loop]
    rw [sort_resolved]
    cases rest with
    | nil =>
      have hlast : key = length - 1 := by simp at hk; omega
      simp [hlast, BuildSQLOrderBy.loop, String.intercalate, String.intercalate.go,
        String.append_assoc]
    | cons t rest2 =>
      have hnot : key ≠ length - 1 := by simp at hk; omega
      rw [if_pos hnot, ih (key + 1) _ (by simp) (by simp at hk ⊢; omega)]
      simp only [List.map_cons]
      rw [intercalate_cons_cons (", ") (sortEntry s)]
      simp only [String.append_assoc]
      rfl

/-- C13 (amended): `BuildSQLOrderBy` returns `""` for an empty sort list, and for every
non-empty sort list `ORDER BY ` followed by the entries `<name> <order>` joined by `, ` in
input order, the name being the lower-cased form of Source.Name when Source is set (of Name
otherwise) and the order ASC when blank; `[{Name:"name"},{Name:"age",Order:"DESC"}]` gives
`ORDER BY name ASC, age DESC`. -/
theorem order_by_keeps_input_order [CaseTable] (sorts : List SortField) (hne : sorts ≠ []) :
    BuildSQLOrderBy [] = ""
      ∧ BuildSQLOrderBy sorts = "ORDER BY " ++ ", ".intercalate (sorts.map sortEntry)
      ∧ BuildSQLOrderBy [{ Name := "name" }, { Name := "age", Order := .Desc }]
          = "ORDER BY name ASC, age DESC" := by
  refine ⟨rfl, ?_, rfl⟩
  have hemp : sorts.isEmpty = false := by
    cases sorts with
    | nil => exact absurd rfl hne
    | cons _ _ => rfl
  unfold BuildSQLOrderBy
  rw [hemp]
  simp only [Bool.false_eq_true, if_false]
  rw [orderBy_loop sorts.length sorts 0 "ORDER BY" hne (by simp)]
  rfl

/-- Witness for C13: an aliased key with a blank order before a descending key whose name
holds a capital letter outside ASCII. -/
theorem order_by_keeps_input_order_witness :
    [({ Name := "Zip", Source := "a" } : SortField), { Name := "ÅR", Order := .Desc }] ≠ []
      ∧ BuildSQLOrderBy [{ Name := "Zip", Source := "a" }, { Name := "ÅR", Order := .Desc }]
          = "ORDER BY a.zip ASC, år DESC" :=
  ⟨by decide,
    (order_by_keeps_input_order
      [{ Name := "Zip", Source := "a" }, { Name := "ÅR", Order := .Desc }]
      (by decide)).2.1.trans (by decide)⟩

/-- Counterexample to C13 as stated: the name printed is not Source.Name as given; a capital
letter in Source or Name is printed as its small letter. -/
theorem order_by_lowercases_names :
    BuildSQLOrderBy [{ Name := "Age", Source := "T" }] = "ORDER BY t.age ASC"
      ∧ BuildSQLOrderBy [{ Name := "Age", Source := "T" }] ≠ "ORDER BY T.Age ASC" := by
  decide

/-- C14: for every base statement and specification, `BuildQueryArgsAndPagination` returns the
base text, the text of `BuildSQLWhere`, of `BuildSQLOrderBy` and of `BuildSQLPagination`
concatenated in that order with exactly one space before each clause, whether or not a
clause is empty, and its args are the args `BuildSQLWhere` returns for the filters; the
variant with a starting index does the same over `BuildSQLWhereWithSequence`. -/
theorem composition_concatenates_clauses [CaseTable] (initialSQL : String)
    (specification : FieldsSpecification) (initSequenceFilters : Int) :
    BuildQueryArgsAndPagination initialSQL specification =
        (initialSQL ++ " " ++ (BuildSQLWhere specification.Filters).1 ++ " "
            ++ BuildSQLOrderBy specification.Sorts ++ " "
            ++ BuildSQLPagination specification.Pagination,
          (BuildSQLWhere specification.Filters).2)
      ∧ BuildQueryArgsAndPaginationWithSequence initialSQL specification initSequenceFilters =
        (initialSQL ++ " "
            ++ (BuildSQLWhereWithSequence specification.Filters initSequenceFilters).1 ++ " "
            ++ BuildSQLOrderBy specification.Sorts ++ " "
            ++ BuildSQLPagination specification.Pagination,
          (BuildSQLWhereWithSequence specification.Filters initSequenceFilters).2)
      ∧ BuildQueryArgsAndPagination "SELECT 1" {} = ("SELECT 1   ", some []) := by
  refine ⟨?_, ?_, rfl⟩
  · simp only [BuildQueryArgsAndPagination, String.append_assoc]
  · simp only [BuildQueryArgsAndPaginationWithSequence, String.append_assoc]

/-! ### Statement templators -/

theorem insertLoop_eq (first : Nat) (fields : List String) :
    ∀ (k : Nat) (args vals : String),
      insertLoop first k args vals fields =
        (args ++ inArgs id fields,
          vals ++ inArgs (fun j => "$" ++ fmtNat (j + first)) (List.range' k fields.length)) := by
  induction fields with
  | nil => intro k args vals; simp [insertLoop, inArgs]
  | cons v rest ih =>
    intro k args vals
    rw [insertLoop, ih]
    simp only [List.length_cons, List.range'_succ, inArgs_cons, id, String.append_assoc]

theorem dropLastByte_comma (x : String) : dropLastByte (x ++ ",") = x := by
  unfold dropLastByte
  apply String.ext
  simp

theorem insert_texts (first : Nat) (fields : List String) (hne : fields ≠ []) :
    dropLastByte (insertLoop first 0 "" "" fields).1 = ",".intercalate fields
      ∧ dropLastByte (insertLoop first 0 "" "" fields).2
          = ",".intercalate (columnPlaceholders first fields.length) := by
  rw [insertLoop_eq]
  cases fields with
  | nil => exact absurd rfl hne
  | cons v rest =>
    constructor
    · simp only [String.empty_append]
      rw [inArgs_eq_intercalate, dropLastByte_comma]
      simp
    · simp only [String.empty_append, List.length_cons, List.range'_succ]
      rw [inArgs_eq_intercalate, dropLastByte_comma]
      simp only [columnPlaceholders, List.range_eq_range', List.range'_succ, List.map_cons]

/-- C15: for every table name and every non-empty column list c1..cn, `BuildSQLInsert` returns
`INSERT INTO t (id,c1,...,cn) VALUES ($1,$2,...,$n+1) RETURNING created_at` and
`BuildSQLInsertNoID` returns `INSERT INTO t (c1,...,cn) VALUES ($1,...,$n) RETURNING id,
created_at`, the placeholders following column order; there are as many placeholders as
columns. -/
theorem insert_numbers_columns_in_order (table : String) (fields : List String)
    (hne : fields ≠ []) :
    BuildSQLInsert table fields =
        "INSERT INTO " ++ table ++ " (id," ++ ",".intercalate fields ++ ") VALUES ($1,"
          ++ ",".intercalate (columnPlaceholders 2 fields.length) ++ ") RETURNING created_at"
      ∧ BuildSQLInsertNoID table fields =
        "INSERT INTO " ++ table ++ " (" ++ ",".intercalate fields ++ ") VALUES ("
          ++ ",".intercalate (columnPlaceholders 1 fields.length)
          ++ ") RETURNING id, created_at"
      ∧ (columnPlaceholders 2 fields.length).length = fields.length
      ∧ (columnPlaceholders 1 fields.length).length = fields.length := by
  have hpos : fields.length > 0 := List.length_pos.mpr hne
  refine ⟨?_, ?_, by simp [columnPlaceholders], by simp [columnPlaceholders]⟩
  · obtain ⟨h1, h2⟩ := insert_texts 2 fields hne
    simp only [BuildSQLInsert, if_pos hpos, h1, h2]
  · obtain ⟨h1, h2⟩ := insert_texts 1 fields hne
    simp only [BuildSQLInsertNoID, if_pos hpos, h1, h2]

/-- Witness for C15: three columns. -/
theorem insert_numbers_columns_in_order_witness :
    ["name", "age", "city"] ≠ []
      ∧ BuildSQLInsert "users" ["name", "age", "city"]
          = "INSERT INTO users (id,name,age,city) VALUES ($1,$2,$3,$4) RETURNING created_at" :=
  ⟨by decide,
    (insert_numbers_columns_in_order "users" ["name", "age", "city"] (by decide)).1.trans
      (by decide)⟩

theorem intercalate_cons_ne (sep a : String) (l : List String) (h : l ≠ []) :
    sep.intercalate (a :: l) = a ++ sep ++ sep.intercalate l := by
  cases l with
  | nil => exact absurd rfl h
  | cons b rest => exact intercalate_cons_cons sep a b rest

theorem aliasedColumns_foldl (aliased : String) (fields : List String)
    (tail : List String) (ht : tail ≠ []) :
    ∀ acc : String,
      fields.foldl (fun columns v => columns ++ (aliased ++ "." ++ v ++ ", ")) acc
          ++ ", ".intercalate tail =
        acc ++ ", ".intercalate ((fields.map fun v => aliased ++ "." ++ v) ++ tail) := by
  induction fields with
  | nil => intro acc; simp
  | cons v rest ih =>
    intro acc
    simp only [List.foldl_cons, List.map_cons, List.cons_append]
    rw [ih, intercalate_cons_ne _ _ _ (by simp [ht])]
    simp only [String.append_assoc]

theorem columnsAliased_text (fields : List String) (aliased : String) :
    aliased ++ ".id, " ++ aliasedColumns aliased fields ++ aliased ++ ".created_at, " ++ aliased
        ++ ".updated_at" =
      ", ".intercalate ((aliased ++ ".id") :: ((fields.map fun v => aliased ++ "." ++ v)
        ++ [aliased ++ ".created_at", aliased ++ ".updated_at"])) := by
  have h := aliasedColumns_foldl aliased fields
    [aliased ++ ".created_at", aliased ++ ".updated_at"] (by simp) ""
  have h2 : ", ".intercalate [aliased ++ ".created_at", aliased ++ ".updated_at"]
      = aliased ++ ".created_at, " ++ aliased ++ ".updated_at" := by
    simp [String.intercalate, String.intercalate.go, String.append_assoc]
  rw [intercalate_cons_ne _ _ _ (by simp), ← String.empty_append (String.intercalate _ _), ← h,
    h2]
  simp only [aliasedColumns, String.append_assoc]
  rfl

/-- C16 (amended): for every non-empty column list and every alias, `ColumnsAliased` and
`ColumnsAliasedWithDefault` return the list that starts with `alias.id`, ends with
`alias.created_at, alias.updated_at` and has the given columns, alias-qualified and in input
order, in between, the entries separated by `, `. -/
theorem aliased_columns_are_framed (fields : List String) (aliased : String)
    (hne : fields ≠ []) :
    ColumnsAliased fields aliased =
        ", ".intercalate ((aliased ++ ".id") :: ((fields.map fun v => aliased ++ "." ++ v)
          ++ [aliased ++ ".created_at", aliased ++ ".updated_at"]))
      ∧ ColumnsAliasedWithDefault fields aliased = ColumnsAliased fields aliased := by
  have hlen : fields.length ≠ 0 := by
    intro h; exact hne (List.length_eq_zero.mp h)
  refine ⟨?_, rfl⟩
  unfold ColumnsAliased
  rw [if_neg hlen, columnsAliased_text]

/-- Witness for C16: two columns under the alias `u`. -/
theorem aliased_columns_are_framed_witness :
    ["name", "age"] ≠ []
      ∧ ColumnsAliased ["name", "age"] "u"
          = "u.id, u.name, u.age, u.created_at, u.updated_at" :=
  ⟨by decide, (aliased_columns_are_framed ["name", "age"] "u" (by decide)).1.trans (by decide)⟩

/-- Counterexample to C16 as stated: for an empty column list both functions return the empty
text, which neither starts with `alias.id` nor ends with the two timestamps. -/
theorem aliased_columns_of_nothing_is_empty :
    ColumnsAliased [] "u" = "" ∧ ColumnsAliasedWithDefault [] "u" = ""
      ∧ ColumnsAliased [] "u" ≠ "u.id, u.created_at, u.updated_at" := by
  decide

theorem updateBy_loop (fields : List Field) :
    ∀ (k : Nat) (text : String) (args : Option (List Value)),
      BuildSQLUpdateBy.loop k text args fields =
        (text ++ updateAssignments (k + 1) fields, boundArgs args fields) := by
  induction fields with
  | nil => intro k text args; simp [BuildSQLUpdateBy.loop, updateAssignments, boundArgs]
  | cons f rest ih =>
    intro k text args
    simp only [BuildSQLUpdateBy.loop, ih, updateAssignments, boundArgs, String.append_assoc]

theorem boundArgs_getD (fields : List Field) :
    ∀ args : Option (List Value),
      (boundArgs args fields).getD [] = args.getD [] ++ nonNilValues fields := by
  induction fields with
  | nil => intro args; simp [boundArgs, nonNilValues]
  | cons f rest ih =>
    intro args
    rw [boundArgs, ih]
    by_cases hv : f.Value = .nil
    · simp [hv, nonNilValues]
    · simp [hv, nonNilValues, goAppend]

theorem nonNilValues_length (fields : List Field) :
    (nonNilValues fields).length = fields.length ↔ ∀ f ∈ fields, f.Value ≠ .nil := by
  induction fields with
  | nil => simp [nonNilValues]
  | cons f rest ih =>
    have hle : (nonNilValues rest).length ≤ rest.length := by
      unfold nonNilValues
      exact (List.length_filter_le _ _).trans (by simp)
    have hcons : nonNilValues (f :: rest) =
        if f.Value ≠ .nil then f.Value :: nonNilValues rest else nonNilValues rest := by
      unfold nonNilValues
      by_cases hv : f.Value = .nil <;> simp [hv]
    rw [hcons]
    by_cases hv : f.Value = .nil
    · simp only [hv, ne_eq, not_true_eq_false, if_false, List.length_cons, List.mem_cons,
        forall_eq_or_imp, false_and, iff_false]
      omega
    · simp only [ne_eq, hv, not_false_eq_true, if_true, List.length_cons, List.mem_cons,
        forall_eq_or_imp, true_and, Nat.add_right_cancel_iff]
      exact ih

theorem nonNilValues_of_all (fields : List Field) (h : ∀ f ∈ fields, f.Value ≠ .nil) :
    nonNilValues fields = fields.map fun f => f.Value := by
  unfold nonNilValues
  rw [List.filter_eq_self]
  intro v hv
  obtain ⟨f, hf, rfl⟩ := List.mem_map.mp hv
  simpa using h f hf

/-- C20: for every table, identifying column and non-empty field list of length n,
`BuildSQLUpdateBy` returns `UPDATE t SET n1 = $1, ..., nn = $n, updated_at = now() WHERE
byField = $n+1` and as args the non-nil Values of the fields in field order; the args have
length n exactly when every Value is non-nil (then they are the Values, the k-th for `$k`),
they never have more than n entries, so none is supplied for `$n+1`; for an empty field list
the result is `""` with no args. -/
theorem update_by_binds_non_nil_values (table byField : String) (fields : List Field)
    (hne : fields ≠ []) :
    (BuildSQLUpdateBy table byField fields).1 =
        "UPDATE " ++ table ++ " SET " ++ updateAssignments 1 fields
          ++ "updated_at = now() WHERE " ++ byField ++ " = $" ++ fmtNat (fields.length + 1)
      ∧ ((BuildSQLUpdateBy table byField fields).2).getD [] = nonNilValues fields
      ∧ ((((BuildSQLUpdateBy table byField fields).2).getD []).length = fields.length
          ↔ ∀ f ∈ fields, f.Value ≠ .nil)
      ∧ ((∀ f ∈ fields, f.Value ≠ .nil) →
          (BuildSQLUpdateBy table byField fields).2 = some (fields.map fun f => f.Value))
      ∧ (((BuildSQLUpdateBy table byField fields).2).getD []).length ≤ fields.length
      ∧ BuildSQLUpdateBy table byField [] = ("", none) := by
  have hemp : fields.isEmpty = false := by
    cases fields with
    | nil => exact absurd rfl hne
    | cons _ _ => rfl
  have hres : BuildSQLUpdateBy table byField fields =
      ("UPDATE " ++ table ++ " SET " ++ updateAssignments 1 fields
          ++ "updated_at = now() WHERE " ++ byField ++ " = $" ++ fmtNat (fields.length + 1),
        boundArgs none fields) := by
    unfold BuildSQLUpdateBy
    rw [hemp, updateBy_loop]
    simp
  have hargs : ((BuildSQLUpdateBy table byField fields).2).getD [] = nonNilValues fields := by
    rw [hres]
    simpa using boundArgs_getD fields none
  refine ⟨by rw [hres], hargs, ?_, ?_, ?_, rfl⟩
  · rw [hargs]; exact nonNilValues_length fields
  · intro hall
    rw [hres]
    simpa using boundArgs_of_values fields none hne hall
  · rw [hargs]
    unfold nonNilValues
    exact (List.length_filter_le _ _).trans (by simp)

/-- Witness for C20: three assignments, the second with a nil Value. -/
theorem update_by_binds_non_nil_values_witness :
    [({ Name := "name", Value := .str "Ana" } : Field), { Name := "age" },
        { Name := "city", Value := .str "Lima" }] ≠ []
      ∧ BuildSQLUpdateBy "users" "email"
          [({ Name := "name", Value := .str "Ana" } : Field), { Name := "age" },
            { Name := "city", Value := .str "Lima" }]
        = ("UPDATE users SET name = $1, age = $2, city = $3, updated_at = now() "
            ++ "WHERE email = $4", some [.str "Ana", .str "Lima"]) :=
  ⟨by decide,
    Prod.ext
      ((update_by_binds_non_nil_values "users" "email"
        [({ Name := "name", Value := .str "Ana" } : Field), { Name := "age" },
          { Name := "city", Value := .str "Lima" }] (by decide)).1.trans (by decide))
      (by decide)⟩

/-! ### The two assemblers side by side, and the bare parenthesis -/

/-- C11 (defect): after a BareParenthesis field `BuildSQLWhereWithSequence` still appends the
(cleared) chaining key behind a space and still advances the parameter counter, which
`BuildSQLWhere` is written not to do; from index 1 the two therefore return different texts
for the same filters, and the variant numbers the first placeholder `$2`. -/
theorem sequence_variant_differs_after_parenthesis :
    BuildSQLWhere [({ Operator := .Parenthesis, GroupOpen := true } : Field),
        { Name := "a", Value := .int 1, GroupClose := true }]
        = ("WHERE ( a = $1)", some [.int 1])
      ∧ BuildSQLWhereWithSequence [({ Operator := .Parenthesis, GroupOpen := true } : Field),
          { Name := "a", Value := .int 1, GroupClose := true }] 1
        = ("WHERE (  a = $2)", some [.int 1]) := by
  decide

theorem body_eq_bodySeq [CaseTable] (isLast : Bool) (st : WhereState) (f : Field)
    (h : f.Operator ≠ .Parenthesis) :
    BuildSQLWhereWithSequence.body isLast st f = BuildSQLWhere.body isLast st f := by
  cases hs : whereSwitch (resolveField f) st.query st.paramSequence with
  | error e => rw [body_of_switch_error _ _ _ _ hs, bodySeq_of_switch_error _ _ _ _ hs]
  | ok r =>
    obtain ⟨q, p⟩ := r
    rw [body_of_switch _ _ _ _ _ hs, bodySeq_of_switch _ _ _ _ _ hs]
    simp [chainingText, chainingTextSeq, h]

theorem loop_eq_loopSeq [CaseTable] (L : Nat) (fields : List Field) :
    ∀ (key : Nat) (st : WhereState), (∀ f ∈ fields, f.Operator ≠ .Parenthesis) →
      BuildSQLWhereWithSequence.loop L key st fields = BuildSQLWhere.loop L key st fields := by
  induction fields with
  | nil => intro key st _; simp [BuildSQLWhereWithSequence.loop, BuildSQLWhere.loop]
  | cons f rest ih =>
    intro key st h
    rw [BuildSQLWhereWithSequence.loop, BuildSQLWhere.loop,
      body_eq_bodySeq _ _ _ (h f (List.mem_cons_self _ _))]
    cases BuildSQLWhere.body (key == L) st f with
    | error e => rfl
    | ok st1 => exact ih _ _ (fun g hg => h g (List.mem_cons_of_mem _ hg))

/-- The two assemblers agree from index 1 on every filter list without a BareParenthesis
field. -/
theorem sequence_variant_agrees_without_parenthesis [CaseTable] (fields : List Field)
    (h : ∀ f ∈ fields, f.Operator ≠ .Parenthesis) :
    BuildSQLWhereWithSequence fields 1 = BuildSQLWhere fields := by
  unfold BuildSQLWhereWithSequence BuildSQLWhere
  rw [loop_eq_loopSeq _ _ _ _ h]

theorem body_parenthesis [CaseTable] (isLast : Bool) (st : WhereState) (f : Field)
    (hop : f.Operator = .Parenthesis) (hgo : f.GroupOpen = true) (hval : f.Value = .nil) :
    BuildSQLWhere.body isLast st f =
      .ok ⟨st.query ++ " (" ++ closingText f isLast st.nGroups, st.args,
           groupsAfter f st.nGroups, st.paramSequence⟩ := by
  have hsw := whereSwitch_parenthesis f st.query st.paramSequence hop
  have hname : ToLower f.resolvedName = " (" := by
    simp only [Field.resolvedName, hop, hgo, and_self, if_true]
    rfl
  rw [hname] at hsw
  rw [body_of_switch isLast st f _ _ hsw]
  have happ : appendArgs (resolveField f) st.args = st.args := by
    simp [appendArgs, resolveField_Operator, resolveField_Value, Field.resolvedOperator, hop,
      hval]
  simp [hop, happ, chainingText]

/-- C17 (amended): in `BuildSQLWhere`, a BareParenthesis field with GroupOpen set and a nil
Value contributes, wherever it stands in a filter list, only the literal ` (` text in place of
a condition (followed by the closing parentheses the group rule gives it): no column name,
no comparison, no placeholder, no chaining key, no argument, and the parameter counter stays
where it is. -/
theorem bare_parenthesis_emits_only_the_literal [CaseTable] (L key : Nat) (st : WhereState) (f : Field)
    (rest : List Field)
    (hop : f.Operator = .Parenthesis) (hgo : f.GroupOpen = true) (hval : f.Value = .nil) :
    BuildSQLWhere.loop L key st (f :: rest) =
        BuildSQLWhere.loop L (key + 1)
          ⟨st.query ++ " (" ++ closingText f (key == L) st.nGroups, st.args,
            groupsAfter f st.nGroups, st.paramSequence⟩ rest
      ∧ (f.GroupClose = false → rest ≠ [] → key + (f :: rest).length = L + 1 →
          closingText f (key == L) st.nGroups = "") := by
  constructor
  · rw [BuildSQLWhere.loop, body_parenthesis _ _ _ hop hgo hval]
  · intro hgc hrest hk
    have hlast : (key == L) = false := by
      rw [key_is_last L key rest hk]
      cases rest with
      | nil => exact absurd rfl hrest
      | cons _ _ => rfl
    simp [closingText, hgc, hlast]

/-- Witness for C17: a bare parenthesis that opens a group before an Equals filter. -/
theorem bare_parenthesis_emits_only_the_literal_witness :
    (({ Operator := .Parenthesis, GroupOpen := true, Name := "ignored" } : Field).Operator
          = .Parenthesis
        ∧ ({ Operator := .Parenthesis, GroupOpen := true, Name := "ignored" } : Field).GroupOpen
          = true
        ∧ ({ Operator := .Parenthesis, GroupOpen := true, Name := "ignored" } : Field).Value
          = .nil)
      ∧ BuildSQLWhere.loop 1 0 whereStart
          [{ Operator := .Parenthesis, GroupOpen := true, Name := "ignored" }, sampleEquals]
        = BuildSQLWhere.loop 1 (0 + 1)
            ⟨whereStart.query ++ " ("
                ++ closingText { Operator := .Parenthesis, GroupOpen := true, Name := "ignored" }
                    (0 == 1) whereStart.nGroups,
              whereStart.args,
              groupsAfter { Operator := .Parenthesis, GroupOpen := true, Name := "ignored" }
                whereStart.nGroups,
              whereStart.paramSequence⟩ [sampleEquals] :=
  ⟨⟨rfl, rfl, rfl⟩,
    (bare_parenthesis_emits_only_the_literal 1 0 whereStart
      { Operator := .Parenthesis, GroupOpen := true, Name := "ignored" } [sampleEquals]
      rfl rfl rfl).1⟩

/-- Counterexample to C17 as stated: a BareParenthesis field without GroupOpen emits its
column name and no parenthesis at all, and one that carries a Value has it appended to the
args although it has no placeholder. -/
theorem bare_parenthesis_can_emit_a_name_and_an_argument :
    BuildSQLWhere [({ Name := "x", Operator := .Parenthesis } : Field),
        { Name := "a", Value := .int 1 }]
        = ("WHEREx a = $1", some [.int 1])
      ∧ BuildSQLWhere [({ Operator := .Parenthesis, GroupOpen := true, Value := .int 7 } : Field),
          { Name := "a", Value := .int 1, GroupClose := true }]
        = ("WHERE ( a = $1)", some [.int 7, .int 1]) := by
  decide

/-! ### Alignment of placeholders and args -/

theorem toLower_toLower (c : Char) : c.toLower.toLower = c.toLower := by
  by_cases hu : c.toNat ≥ 65 ∧ c.toNat ≤ 90
  · have h1 : c.toLower = Char.ofNat (c.toNat + 32) := by
      simp only [Char.toLower, if_pos hu]
    rw [h1]
    generalize c.toNat = n at hu
    obtain ⟨h2, h3⟩ := hu
    interval_cases n <;> decide
  · have h1 : c.toLower = c := by
      simp only [Char.toLower, if_neg hu]
    rw [h1, h1]

theorem toLower_not_capital (c : Char) : ¬ (65 ≤ c.toLower.toNat ∧ c.toLower.toNat ≤ 90) := by
  by_cases hu : c.toNat ≥ 65 ∧ c.toNat ≤ 90
  · have h1 : c.toLower = Char.ofNat (c.toNat + 32) := by
      simp only [Char.toLower, if_pos hu]
    rw [h1]
    generalize c.toNat = n at hu
    obtain ⟨h2, h3⟩ := hu
    interval_cases n <;> decide
  · have h1 : c.toLower = c := by
      simp only [Char.toLower, if_neg hu]
    rw [h1]
    exact hu

theorem toLower_toNat_le (c : Char) (h : c.toNat ≤ 127) : c.toLower.toNat ≤ 127 := by
  by_cases hu : c.toNat ≥ 65 ∧ c.toNat ≤ 90
  · have h1 : c.toLower = Char.ofNat (c.toNat + 32) := by
      simp only [Char.toLower, if_pos hu]
    rw [h1]
    generalize c.toNat = n at hu
    obtain ⟨h2, h3⟩ := hu
    interval_cases n <;> decide
  · have h1 : c.toLower = c := by
      simp only [Char.toLower, if_neg hu]
    rw [h1]
    exact h

theorem toLower_of_not_ascii (c : Char) (h : ¬ c.toNat ≤ 127) : c.toLower = c := by
  have hu : ¬ (c.toNat ≥ 65 ∧ c.toNat ≤ 90) := by omega
  simp only [Char.toLower, if_neg hu]

theorem unicodeToLower_toLower [CaseTable] (c : Char) :
    unicodeToLower c.toLower = unicodeToLower c := by
  by_cases h : c.toNat ≤ 127
  · unfold unicodeToLower
    rw [if_pos h, if_pos (toLower_toNat_le c h), toLower_toLower]
  · rw [toLower_of_not_ascii c h]

theorem ToLower_asciiLower [CaseTable] (s : String) : ToLower (asciiLower s) = ToLower s := by
  apply String.ext
  simp [ToLower, asciiLower, unicodeToLower_toLower]

theorem ToLower_of_isASCII [CaseTable] (s : String) (h : isASCII s = true) :
    ToLower s = asciiLower s := by
  apply String.ext
  simp only [ToLower, asciiLower]
  apply List.map_congr_left
  intro c hc
  simp only [isASCII, List.all_eq_true, decide_eq_true_eq] at h
  have := h c hc
  unfold unicodeToLower
  rw [if_pos (by omega)]

theorem asciiLower_eq_empty (s : String) : asciiLower s = "" ↔ s = "" := by
  constructor
  · intro h
    have hd : (asciiLower s).data = [] := by rw [h]
    simp only [asciiLower, List.map_eq_nil_iff] at hd
    exact String.ext hd
  · intro h; subst h; rfl

theorem hasNoCapital_asciiLower (s : String) : hasNoCapital (asciiLower s) = true := by
  simp only [hasNoCapital, asciiLower, List.all_eq_true, List.mem_map, forall_exists_index,
    and_imp, forall_apply_eq_imp_iff₂, Bool.not_eq_true', Bool.and_eq_false_iff,
    decide_eq_false_iff_not]
  intro c _
  by_contra hc
  push_neg at hc
  exact toLower_not_capital c ⟨hc.1, hc.2⟩

theorem isASCII_append (a b : String) : isASCII (a ++ b) = (isASCII a && isASCII b) := by
  simp [isASCII, String.data_append, List.all_append]

theorem isASCII_aliasedName (f : Field) (h : f.hasASCIINames = true) :
    isASCII f.aliasedName = true := by
  simp only [Field.hasASCIINames, Bool.and_eq_true] at h
  unfold Field.aliasedName
  split_ifs
  · exact h.1.1.1
  · rw [isASCII_append, isASCII_append, h.1.1.1, h.1.1.2]; rfl

theorem isASCII_aliasedTarget (f : Field) (h : f.hasASCIINames = true) :
    isASCII f.aliasedTarget = true := by
  simp only [Field.hasASCIINames, Bool.and_eq_true] at h
  unfold Field.aliasedTarget
  split_ifs
  · exact h.1.2
  · rw [isASCII_append, isASCII_append, h.1.2, h.2]; rfl

theorem isASCII_resolvedName (f : Field) (h : f.hasASCIINames = true) :
    isASCII f.resolvedName = true := by
  have ha := isASCII_aliasedName f h
  unfold Field.resolvedName
  split_ifs
  · rfl
  · rw [isASCII_append, ha]; rfl
  · exact ha

theorem ToLower_aliasedName_lowerNames [CaseTable] (f : Field) :
    ToLower f.lowerNames.aliasedName = ToLower f.aliasedName := by
  simp only [Field.aliasedName, Field.lowerNames, asciiLower_eq_empty]
  split_ifs
  · exact ToLower_asciiLower _
  · rw [ToLower_append, ToLower_append, ToLower_append, ToLower_append, ToLower_asciiLower,
      ToLower_asciiLower]

theorem ToLower_aliasedTarget_lowerNames [CaseTable] (f : Field) :
    ToLower f.lowerNames.aliasedTarget = ToLower f.aliasedTarget := by
  simp only [Field.aliasedTarget, Field.lowerNames, asciiLower_eq_empty]
  split_ifs
  · exact ToLower_asciiLower _
  · rw [ToLower_append, ToLower_append, ToLower_append, ToLower_append, ToLower_asciiLower,
      ToLower_asciiLower]

theorem ToLower_resolvedName_lowerNames [CaseTable] (f : Field) :
    ToLower f.lowerNames.resolvedName = ToLower f.resolvedName := by
  have h := ToLower_aliasedName_lowerNames f
  unfold Field.resolvedName
  have ho : f.lowerNames.Operator = f.Operator := rfl
  have hg : f.lowerNames.GroupOpen = f.GroupOpen := rfl
  rw [ho, hg]
  split_ifs
  · rfl
  · rw [ToLower_append, ToLower_append, h]
  · exact h

theorem whereSwitch_congr [CaseTable] (g g2 : Field) (q : String) (p : Int)
    (hN : ToLower g.Name = ToLower g2.Name)
    (hT : ToLower g.NameValueFromTable = ToLower g2.NameValueFromTable)
    (hO : g.Operator = g2.Operator) (hV : g.Value = g2.Value)
    (hF : g.FromValue = g2.FromValue) (hTo : g.ToValue = g2.ToValue)
    (hvt : g.IsValueFromTable = g2.IsValueFromTable) :
    whereSwitch g q p = whereSwitch g2 q p := by
  simp only [whereSwitch, BuildINNotIN, Field.ValidateFromAndToValues, hN, hT, hO, hV, hF, hTo,
    hvt]

theorem whereSwitch_lowerNames [CaseTable] (f : Field) (q : String) (p : Int) :
    whereSwitch (resolveField f.lowerNames) q p = whereSwitch (resolveField f) q p := by
  apply whereSwitch_congr
  · rw [resolveField_Name, resolveField_Name, ToLower_resolvedName_lowerNames]
  · rw [resolveField_NameValueFromTable, resolveField_NameValueFromTable,
      ToLower_aliasedTarget_lowerNames]
  · exact (resolveField_Operator _).trans (resolveField_Operator f).symm
  · exact (resolveField_Value _).trans (resolveField_Value f).symm
  · exact (resolveField_FromValue _).trans (resolveField_FromValue f).symm
  · exact (resolveField_ToValue _).trans (resolveField_ToValue f).symm
  · exact (resolveField_IsValueFromTable _).trans (resolveField_IsValueFromTable f).symm

theorem body_lowerNames [CaseTable] (isLast : Bool) (st : WhereState) (f : Field) :
    BuildSQLWhere.body isLast st f.lowerNames = BuildSQLWhere.body isLast st f := by
  have hsk : skipsArgs (resolveField f.lowerNames) = skipsArgs (resolveField f) := by
    simp only [skipsArgs, resolveField_Operator, resolveField_IsValueFromTable]; rfl
  have hap : ∀ a, appendArgs (resolveField f.lowerNames) a = appendArgs (resolveField f) a := by
    intro a
    simp only [appendArgs, resolveField_Operator, resolveField_Value, resolveField_FromValue,
      resolveField_ToValue]; rfl
  cases hs : whereSwitch (resolveField f) st.query st.paramSequence with
  | error e =>
    rw [body_of_switch_error _ _ _ _ hs,
      body_of_switch_error _ _ _ _ ((whereSwitch_lowerNames f _ _).trans hs)]
  | ok r =>
    obtain ⟨q, p⟩ := r
    rw [body_of_switch _ _ _ _ _ hs,
      body_of_switch _ _ _ _ _ ((whereSwitch_lowerNames f _ _).trans hs), hsk, hap]
    rfl

theorem loop_lowerNames [CaseTable] (L : Nat) (fields : List Field) :
    ∀ (key : Nat) (st : WhereState),
      BuildSQLWhere.loop L key st (fields.map Field.lowerNames) =
        BuildSQLWhere.loop L key st fields := by
  induction fields with
  | nil => intro key st; rfl
  | cons f rest ih =>
    intro key st
    simp only [List.map_cons, BuildSQLWhere.loop, body_lowerNames]
    cases BuildSQLWhere.body (key == L) st f with
    | error e => rfl
    | ok st1 => exact ih _ _

theorem BuildINNotIN_literals [CaseTable] (g : Field) (op : operatorField) :
    BuildINNotIN g op =
      match g.Value.literals with
      | some (l :: ls) =>
        ToLower g.Name ++ " " ++ op.text ++ " (" ++ ",".intercalate (l :: ls) ++ ")"
      | _ => ToLower g.Name ++ " = ''" := by
  unfold BuildINNotIN
  cases hv : g.Value with
  | uints items => cases items <;> simp [Value.literals, inCase_nil, inCase_cons]
  | ints items => cases items <;> simp [Value.literals, inCase_nil, inCase_cons]
  | int64s items => cases items <;> simp [Value.literals, inCase_nil, inCase_cons]
  | strings items => cases items <;> simp [Value.literals, inCase_nil, inCase_cons]
  | uuids items => cases items <;> simp [Value.literals, inCase_nil, inCase_cons]
  | times items => cases items <;> simp [Value.literals, inCase_nil, inCase_cons]
  | nil => simp [Value.literals]
  | int i => simp [Value.literals]
  | str s => simp [Value.literals]
  | bool b => simp [Value.literals]
  | other t => simp [Value.literals]

theorem whereSwitch_folded [CaseTable] (f : Field) (q : String) (p : Int)
    (hascii : f.hasASCIINames = true) (hwf : ¬ f.isMalformedBetween) :
    whereSwitch (resolveField f) q p =
      .ok (q ++ foldedCondition f p, if f.Operator = .Between then intAdd p 1 else p) := by
  have hn := ToLower_of_isASCII _ (isASCII_resolvedName f hascii)
  have ht := ToLower_of_isASCII _ (isASCII_aliasedTarget f hascii)
  cases hop : f.Operator with
  | In =>
    rw [whereSwitch_in f q p (Or.inl hop), BuildINNotIN_literals, resolveField_Name,
      resolveField_Value, hn]
    simp only [foldedCondition, hop]
    cases f.Value.literals with
    | none => simp [String.append_assoc]
    | some ls => cases ls <;> simp [String.append_assoc]
  | NotIn =>
    rw [whereSwitch_in f q p (Or.inr hop), BuildINNotIN_literals, resolveField_Name,
      resolveField_Value, hn]
    simp only [foldedCondition, hop]
    cases f.Value.literals with
    | none => simp [String.append_assoc]
    | some ls => cases ls <;> simp [String.append_assoc]
  | IsNull =>
    rw [whereSwitch_null f q p (Or.inl hop), hn]
    simp [foldedCondition, hop, String.append_assoc]
  | IsNotNull =>
    rw [whereSwitch_null f q p (Or.inr hop), hn]
    simp [foldedCondition, hop, String.append_assoc]
  | Between =>
    have hb : ¬ (f.FromValue = .nil ∨ f.ToValue = .nil) := fun h => hwf ⟨hop, h⟩
    rw [whereSwitch_between f q p hop, if_neg hb, hn]
    simp [foldedCondition, hop, String.append_assoc]
  | Parenthesis =>
    rw [whereSwitch_parenthesis f q p hop, hn]
    simp [foldedCondition, hop]
  | blank =>
    rw [whereSwitch_comparison f q p (by rw [hop]; rfl), hn, ht]
    simp only [foldedCondition, hop]
    split_ifs <;> simp_all [String.append_assoc]
  | Equals =>
    rw [whereSwitch_comparison f q p (by rw [hop]; rfl), hn, ht]
    simp only [foldedCondition, hop]
    split_ifs <;> simp_all [String.append_assoc]
  | NotEquals =>
    rw [whereSwitch_comparison f q p (by rw [hop]; rfl), hn, ht]
    simp only [foldedCondition, hop]
    split_ifs <;> simp_all [String.append_assoc]
  | LessThan =>
    rw [whereSwitch_comparison f q p (by rw [hop]; rfl), hn, ht]
    simp only [foldedCondition, hop]
    split_ifs <;> simp_all [String.append_assoc]
  | GreaterThan =>
    rw [whereSwitch_comparison f q p (by rw [hop]; rfl), hn, ht]
    simp only [foldedCondition, hop]
    split_ifs <;> simp_all [String.append_assoc]
  | LessOrEqual =>
    rw [whereSwitch_comparison f q p (by rw [hop]; rfl), hn, ht]
    simp only [foldedCondition, hop]
    split_ifs <;> simp_all [String.append_assoc]
  | GreaterOrEqual =>
    rw [whereSwitch_comparison f q p (by rw [hop]; rfl), hn, ht]
    simp only [foldedCondition, hop]
    split_ifs <;> simp_all [String.append_assoc]

theorem skipsArgs_resolveField (f : Field) :
    skipsArgs (resolveField f) = true ↔
      (f.Operator = .In ∨ f.Operator = .IsNull ∨ f.Operator = .IsNotNull
        ∨ f.IsValueFromTable = true) := by
  simp only [skipsArgs, resolveField_Operator, resolveField_IsValueFromTable,
    Field.resolvedOperator]
  cases hop : f.Operator <;> simp

theorem body_folded [CaseTable] (isLast : Bool) (st : WhereState) (f : Field)
    (hascii : f.hasASCIINames = true) (hwf : ¬ f.isMalformedBetween) :
    ∃ args, BuildSQLWhere.body isLast st f =
      .ok ⟨st.query ++ (foldedCondition f st.paramSequence ++ closingText f isLast st.nGroups
            ++ chainingText f isLast),
          args, groupsAfter f st.nGroups, foldedNext f st.paramSequence⟩ := by
  have hb := body_of_switch isLast st f _ _
    (whereSwitch_folded f st.query st.paramSequence hascii hwf)
  refine ⟨if skipsArgs (resolveField f) = true then st.args
    else appendArgs (resolveField f) st.args, hb.trans ?_⟩
  have hs := skipsArgs_resolveField f
  have hp : (if skipsArgs (resolveField f) = true ∨ f.Operator = .Parenthesis then
        (if f.Operator = .Between then intAdd st.paramSequence 1 else st.paramSequence)
      else intAdd (if f.Operator = .Between then intAdd st.paramSequence 1
        else st.paramSequence) 1) = foldedNext f st.paramSequence := by
    simp only [foldedNext]
    by_cases h1 : skipsArgs (resolveField f) = true
    · have h4 : f.Operator = .In ∨ f.Operator = .IsNull ∨ f.Operator = .IsNotNull
          ∨ f.IsValueFromTable = true ∨ f.Operator = .Parenthesis := by
        rcases hs.mp h1 with h | h | h | h
        · exact Or.inl h
        · exact Or.inr (Or.inl h)
        · exact Or.inr (Or.inr (Or.inl h))
        · exact Or.inr (Or.inr (Or.inr (Or.inl h)))
      rw [if_pos (Or.inl h1), if_pos h4]
    · by_cases h3 : f.Operator = .Parenthesis
      · rw [if_pos (Or.inr h3), if_pos (Or.inr (Or.inr (Or.inr (Or.inr h3))))]
      · have h4 : ¬ (f.Operator = .In ∨ f.Operator = .IsNull ∨ f.Operator = .IsNotNull
            ∨ f.IsValueFromTable = true ∨ f.Operator = .Parenthesis) := by
          rintro (h | h | h | h | h)
          · exact h1 (hs.mpr (Or.inl h))
          · exact h1 (hs.mpr (Or.inr (Or.inl h)))
          · exact h1 (hs.mpr (Or.inr (Or.inr (Or.inl h))))
          · exact h1 (hs.mpr (Or.inr (Or.inr (Or.inr h))))
          · exact h3 h
        have h5 : ¬ (skipsArgs (resolveField f) = true ∨ f.Operator = .Parenthesis) := by
          rintro (h | h)
          · exact h1 h
          · exact h3 h
        rw [if_neg h5, if_neg h4]
  rw [hp]
  simp only [String.append_assoc]

theorem loop_folded [CaseTable] (L : Nat) (fields : List Field) :
    ∀ (key : Nat) (st : WhereState), key + fields.length = L + 1 →
      (∀ f ∈ fields, f.hasASCIINames = true) →
      (∀ f ∈ fields, ¬ f.isMalformedBetween) →
      ∃ st1, BuildSQLWhere.loop L key st fields = .ok st1
        ∧ st1.query = st.query ++ foldedClause st.nGroups st.paramSequence fields := by
  induction fields with
  | nil =>
    intro key st _ _ _
    exact ⟨st, rfl, by simp [foldedClause]⟩
  | cons f rest ih =>
    intro key st hk hascii hwf
    simp only [List.length_cons] at hk
    obtain ⟨args1, hbody⟩ := body_folded (key == L) st f
      (hascii f (List.mem_cons_self _ _)) (hwf f (List.mem_cons_self _ _))
    have hlast := key_is_last L key rest hk
    obtain ⟨st1, hl, hq⟩ := ih (key + 1)
      ⟨st.query ++ (foldedCondition f st.paramSequence ++ closingText f (key == L) st.nGroups
          ++ chainingText f (key == L)),
        args1, groupsAfter f st.nGroups, foldedNext f st.paramSequence⟩
      (by omega)
      (fun g hg => hascii g (List.mem_cons_of_mem _ hg))
      (fun g hg => hwf g (List.mem_cons_of_mem _ hg))
    refine ⟨st1, ?_, ?_⟩
    · rw [BuildSQLWhere.loop, hbody]
      exact hl
    · rw [hq, hlast]
      simp only [foldedClause, String.append_assoc]

/-- C19: for every filter list with ASCII names and no malformed Between, replacing each
field's Name, Source, NameValueFromTable and SourceNameValueFromTable by its lowercase form
leaves the clause text and the args of `BuildSQLWhere` unchanged; and the text is `WHERE`
followed by `foldedClause`, in which every column name (the resolved name of each field and
the resolved target of a cross-column comparison) stands in its lowercase form, without a
capital letter. -/
theorem where_ignores_letter_case [CaseTable] (fields : List Field)
    (hascii : ∀ f ∈ fields, f.hasASCIINames = true)
    (hwf : ∀ f ∈ fields, ¬ (f.Operator = .Between ∧ (f.FromValue = .nil ∨ f.ToValue = .nil))) :
    BuildSQLWhere (fields.map Field.lowerNames) = BuildSQLWhere fields
      ∧ (BuildSQLWhere fields).1 =
          (if fields.isEmpty = true then "" else "WHERE" ++ foldedClause 0 1 fields)
      ∧ ∀ f ∈ fields, hasNoCapital (asciiLower f.resolvedName) = true
          ∧ hasNoCapital (asciiLower f.aliasedTarget) = true := by
  refine ⟨?_, ?_, fun f _ => ⟨hasNoCapital_asciiLower _, hasNoCapital_asciiLower _⟩⟩
  · unfold BuildSQLWhere
    rw [loop_lowerNames]
    simp
  · cases hf : fields with
    | nil => rfl
    | cons f rest =>
      rw [← hf]
      have hne : fields.isEmpty = false := by rw [hf]; rfl
      have hk : 0 + fields.length = (fields.length - 1) + 1 := by
        rw [hf]; simp
      obtain ⟨st1, hl, hq⟩ :=
        loop_folded (fields.length - 1) fields 0 ⟨"WHERE", none, 0, 1⟩ hk hascii hwf
      unfold BuildSQLWhere
      rw [hl]
      simp only [hne, Bool.false_eq_true, if_false]
      exact hq

/-- Witness for C19: capital letters in a name, an alias, a cross-column target and the name
of a containment list inside a group. -/
theorem where_ignores_letter_case_witness :
    ((∀ f ∈ [({ Name := "Age", Source := "T", Value := .int 5 } : Field),
          { Name := "City", Operator := .Equals, IsValueFromTable := true,
            NameValueFromTable := "Town", SourceNameValueFromTable := "A" },
          { Name := "Kind", Operator := .NotIn, Value := .strings ["X"], GroupOpen := true }],
        f.hasASCIINames = true)
      ∧ ∀ f ∈ [({ Name := "Age", Source := "T", Value := .int 5 } : Field),
          { Name := "City", Operator := .Equals, IsValueFromTable := true,
            NameValueFromTable := "Town", SourceNameValueFromTable := "A" },
          { Name := "Kind", Operator := .NotIn, Value := .strings ["X"], GroupOpen := true }],
        ¬ (f.Operator = .Between ∧ (f.FromValue = .nil ∨ f.ToValue = .nil)))
      ∧ BuildSQLWhere ([({ Name := "Age", Source := "T", Value := .int 5 } : Field),
          { Name := "City", Operator := .Equals, IsValueFromTable := true,
            NameValueFromTable := "Town", SourceNameValueFromTable := "A" },
          { Name := "Kind", Operator := .NotIn, Value := .strings ["X"],
            GroupOpen := true }].map Field.lowerNames)
        = BuildSQLWhere [({ Name := "Age", Source := "T", Value := .int 5 } : Field),
          { Name := "City", Operator := .Equals, IsValueFromTable := true,
            NameValueFromTable := "Town", SourceNameValueFromTable := "A" },
          { Name := "Kind", Operator := .NotIn, Value := .strings ["X"], GroupOpen := true }]
      ∧ (BuildSQLWhere [({ Name := "Age", Source := "T", Value := .int 5 } : Field),
          { Name := "City", Operator := .Equals, IsValueFromTable := true,
            NameValueFromTable := "Town", SourceNameValueFromTable := "A" },
          { Name := "Kind", Operator := .NotIn, Value := .strings ["X"],
            GroupOpen := true }]).1
        = "WHERE t.age = $1 AND city = a.town AND (kind NOT IN ('X'))" :=
  ⟨⟨by decide, by decide⟩,
    (where_ignores_letter_case _ (by decide) (by decide)).1,
    (where_ignores_letter_case _ (by decide) (by decide)).2.1.trans (by decide)⟩

end Repository
